import Mathlib

/-!
# os_lab_05: the parent side of `src/main.c`

A shallow embedding of the parent process of `main.c`: the helper `write_int`, the
command pump (chunked `read`, in-place line splitting with `strchr` and `strlen`, the poll
of `child_failed`, the two `write` calls per command and the `sleep`), the closing of the
descriptors, `waitpid` and the report of the exit status.

* Bytes (`char`) are natural numbers; `'\n'` is `10`, `'\0'` is `0`.
* The parent's main control flow is modelled by explicit state passing over `PumpState`;
  every system call it makes, and every read of the volatile flag `child_failed`, is
  appended to `PumpState.trace`. The handler `handle_child_signal` acts on the main flow
  only through the flag; its own message on standard output is not part of the trace, and
  the `write` it makes is taken to return.
* The outside world is an `Env`: the data returned by the successive `read` calls (a finite
  list, so the file ends), the moment at which the handler runs (counted in events of the
  main flow), what the kernel finds at every `write`, the disposition of `SIGPIPE` the
  process was started with, the process identifiers and the wait status.
* `main.c` installs a handler for `SIGUSR1` only and never touches `SIGPIPE`. A `write` on a
  pipe whose read end is closed (the child has exited) therefore raises `SIGPIPE` with the
  disposition the process inherited: with the default action the parent is ended inside
  that `write` and makes no further call; only if `SIGPIPE` was inherited as ignored (or
  blocked) does the call return `-1`. A run is a `Run`: either the parent is still `alive`
  at the end of the code, or it was `killed`, and its trace stops at the `write` that
  raised the signal.
* Loops that C bounds only implicitly carry fuel and return `none` when it runs out;
  `write_int_bytes_total`, `scanLines_spec`, `pumpLoop_spec` and `runParent_spec` show that
  this never happens.
* The second half of the definitions (`scanTrace`, `pumpTrace`, `parentTrace`) describes
  the calls the code makes as long as the process lives, as a function of the environment;
  `cut` stops such a list at the first `write` that ends the process. `runParent_spec`
  proves that the run of the embedded code produces exactly the trace `cut (parentTrace env)`.
-/

namespace OsLab05

/-! ## Constants, descriptors, events -/

/-- The macro `BUFFER_SIZE` of `main.c`. -/
def BUFFER_SIZE : Nat := 1024

/-- The byte `'\n'`. -/
def NL : Nat := 10

/-- The file descriptors the parent uses. -/
inductive Fd where
  | STDOUT_FILENO
  | STDERR_FILENO
  | file_fd
  | pipefd0
  | pipefd1
  deriving DecidableEq, Repr

/-- What the kernel finds when the parent calls `write`. -/
inductive Outcome where
  /-- The bytes are written. -/
  | done
  /-- The call fails for a reason other than a broken pipe and returns `-1`. -/
  | error
  /-- The descriptor is a pipe whose read end is closed everywhere (`EPIPE`): the call
  raises `SIGPIPE`. -/
  | brokenPipe
  deriving DecidableEq, Repr

/-- How a call of `write` ends for the parent. -/
inductive WriteResult where
  /-- The call wrote the bytes and returned their number. -/
  | done
  /-- The call returned `-1`. -/
  | failed
  /-- The call raised `SIGPIPE` with its default action: the process ended inside the call,
  which never returned. -/
  | killed
  deriving DecidableEq, Repr

/-- The observable actions of the parent's main control flow. -/
inductive Event where
  /-- A call `read(fd, buffer, count)` that stored `got` (`got = []`: it returned `0` or `-1`). -/
  | read (fd : Fd) (count : Nat) (got : List Nat)
  /-- A call `write(fd, data, data.length)` and how it ended. -/
  | write (fd : Fd) (data : List Nat) (res : WriteResult)
  /-- A read of the volatile flag `child_failed` and the value seen. -/
  | poll (seen : Bool)
  /-- A call `sleep(secs)`. -/
  | sleep (secs : Nat)
  /-- A call `close(fd)`. -/
  | close (fd : Fd)
  /-- A call `waitpid(pid, &status, 0)` and the status it stored. -/
  | waitpid (pid : Int) (status : Nat)
  deriving DecidableEq, Repr

/-- The world around the parent. -/
structure Env where
  /-- Data offered to the successive `read` calls on the command file; once the list is
  used up `read` returns `0`. -/
  reads : List (List Nat)
  /-- The handler `handle_child_signal` runs after that many events of the main flow
  (`none`: `SIGUSR1` never arrives). -/
  raisedAt : Option Nat
  /-- What the kernel finds when the `write` on `fd` is issued as event number `t`. -/
  writeOutcome : Fd → Nat → Outcome
  /-- Whether the parent was started with `SIGPIPE` ignored or blocked (both are inherited
  through `execve`); `main.c` changes neither, so `false` means that the default action of
  the signal takes place. -/
  sigpipe_ignored : Bool
  /-- The indeterminate initial contents of the local array `buffer`. -/
  garbage : Nat → Nat
  /-- The value of `getpid()`. -/
  self_pid : Int
  /-- The value `fork()` returned to the parent. -/
  pid : Int
  /-- The wait status stored by `waitpid`. -/
  status : Nat
  /-- The string `argv[1]`. -/
  argv1 : List Nat

/-- The locals of the parent branch of `main`, and the trace of what it did so far. -/
structure PumpState where
  /-- The array `char buffer[BUFFER_SIZE]`. -/
  buffer : List Nat
  /-- The pointer `line`, as an index into `buffer`. -/
  line : Nat
  /-- The counter `line_number` (overflow of `int` is not modelled). -/
  line_number : Int
  /-- The actions performed so far, oldest first. -/
  trace : List Event
  deriving DecidableEq

/-- Appends one action to the trace. -/
def PumpState.emit (s : PumpState) (e : Event) : PumpState :=
  { s with trace := s.trace ++ [e] }

/-- Where a piece of the parent's code leaves the process. -/
inductive Run where
  /-- The process goes on with the next statement, in state `s`. -/
  | alive (s : PumpState)
  /-- The process was ended by `SIGPIPE` inside the `write` that is the last event of
  `s.trace`; nothing of the code runs after it. -/
  | killed (s : PumpState)
  deriving DecidableEq

/-- The state in which a piece of code left the process. -/
def Run.state : Run → PumpState
  | Run.alive s => s
  | Run.killed s => s

/-- The actions the process performed. -/
def Run.trace (r : Run) : List Event :=
  r.state.trace

/-- Whether the process was ended by `SIGPIPE`. -/
def Run.isKilled : Run → Bool
  | Run.alive _ => false
  | Run.killed _ => true

/-- Sequencing of statements: `f` runs only if the process is still alive. -/
def andThen (r : Option Run) (f : PumpState → Option Run) : Option Run :=
  match r with
  | none => none
  | some (Run.killed s) => some (Run.killed s)
  | some (Run.alive s) => f s

/-- The value of `child_failed` once `t` events of the main flow have happened: the handler
only ever stores `1`. -/
def child_failed (env : Env) (t : Nat) : Bool :=
  match env.raisedAt with
  | none => false
  | some r => decide (r ≤ t)

/-! ## C strings -/

/-- Scan of `strchr` over the bytes from the start pointer on; `i` is the index of the head. -/
def strchrFrom (c : Nat) : List Nat → Nat → Option Nat
  | [], _ => none
  | b :: bs, i => if b = c then some i else if b = 0 then none else strchrFrom c bs (i + 1)

/-- The call `strchr(mem + s, c)`: index of the first `c` in the C string at `s`, `none` for
`NULL`. -/
def strchr (mem : List Nat) (s : Nat) (c : Nat) : Option Nat :=
  strchrFrom c (mem.drop s) s

/-- Scan of `strlen` over the bytes from the start pointer on. -/
def strlenFrom : List Nat → Nat
  | [] => 0
  | b :: bs => if b = 0 then 0 else strlenFrom bs + 1

/-- The call `strlen(mem + s)`. -/
def strlen (mem : List Nat) (s : Nat) : Nat :=
  strlenFrom (mem.drop s)

/-- The UTF-8 bytes of a string literal. -/
def utf8 (s : String) : List Nat :=
  (s.toList.flatMap String.utf8EncodeChar).map UInt8.toNat

/-! ## `write_string` and `write_int` -/

/-- How the `write` on `fd` issued as event number `t` ends: on a broken pipe the process
is killed by `SIGPIPE`, unless the signal is ignored, in which case the call returns `-1`
like any other failure. -/
def writeResult (env : Env) (fd : Fd) (t : Nat) : WriteResult :=
  match env.writeOutcome fd t with
  | Outcome.done => WriteResult.done
  | Outcome.error => WriteResult.failed
  | Outcome.brokenPipe =>
    if env.sigpipe_ignored then WriteResult.failed else WriteResult.killed

/-- A call `write(fd, data, data.length)`. If the call returns, its result is recorded and
otherwise ignored, as in the source; if it raises `SIGPIPE` with the default action, the
process ends here. -/
def sysWrite (env : Env) (s : PumpState) (fd : Fd) (data : List Nat) : Run :=
  let res := writeResult env fd s.trace.length
  let s := s.emit (Event.write fd data res)
  if res = WriteResult.killed then Run.killed s else Run.alive s

/-- The function `write_string`; `str` holds the bytes from the pointer `str` on. -/
def write_string (env : Env) (s : PumpState) (fd : Fd) (str : List Nat) : Run :=
  sysWrite env s fd (str.take (strlenFrom str))

/-- The value of a 32-bit `int` holding `z` modulo `2^32`. -/
def wrap32 (z : Int) : Int :=
  (z + 2147483648) % 4294967296 - 2147483648

/-- The `char` stored by `buffer[i++] = '0' + (num % 10)`. -/
def digitChar (num : Int) : Nat :=
  ((48 + Int.tmod num 10) % 256).toNat

/-- The `do ... while (num > 0)` loop of `write_int`; `buf` is `buffer[0..i)`. The fuel is
the room left in `buffer`: `none` means the loop would write past `buffer[31]`. -/
def digitLoop : Nat → Int → List Nat → Option (List Nat)
  | 0, _, _ => none
  | fuel + 1, num, buf =>
    let buf := buf ++ [digitChar num]
    let num := Int.tdiv num 10
    if num > 0 then digitLoop fuel num buf else some buf

/-- The body of the reversal loop of `write_int` for one `j`. -/
def swapBytes (buf : List Nat) (j k : Nat) : List Nat :=
  let temp := buf.getD j 0
  (buf.set j (buf.getD k 0)).set k temp

/-- The loop `for (int j = 0; j < i / 2; j++)` of `write_int`, with `n` iterations left. -/
def reverseLoop (i : Nat) : Nat → Nat → List Nat → List Nat
  | 0, _, buf => buf
  | n + 1, j, buf => reverseLoop i n (j + 1) (swapBytes buf j (i - j - 1))

/-- The bytes `write_int` hands to `write`, for the argument `num`. -/
def write_int_bytes (num : Int) : Option (List Nat) :=
  let num := wrap32 num
  let is_negative := decide (num < 0)
  let num := if num < 0 then wrap32 (-num) else num
  match digitLoop 32 num [] with
  | none => none
  | some buf =>
    if is_negative ∧ buf.length ≥ 32 then none
    else
      let buf := if is_negative then buf ++ [45] else buf
      some (reverseLoop buf.length (buf.length / 2) 0 buf)

/-- The function `write_int`. -/
def write_int (env : Env) (s : PumpState) (fd : Fd) (num : Int) : Option Run :=
  match write_int_bytes num with
  | none => none
  | some bytes => some (sysWrite env s fd bytes)

/-! ## The command pump -/

/-- How one pass through the body of the inner `while` loop ends. -/
inductive Step where
  /-- The call `strchr(line, '\n')` returned `NULL`: the loop is left. -/
  | done (s : PumpState)
  /-- The end of the body, or `continue`, was reached: the loop goes on. -/
  | next (s : PumpState)
  /-- The statement `break` was reached. -/
  | stop (s : PumpState)
  /-- The process was ended by `SIGPIPE` inside a `write` of the body. -/
  | killed (s : PumpState)
  deriving DecidableEq

/-- The statements that send one command (lines 161 to 171 of `main.c`), in the state `s`
reached after the poll of `child_failed`: the progress message, the two `write` calls on
the pipe and the `sleep`. The locals `line` and `line_number` are those of `s`. -/
def sendLine (env : Env) (s : PumpState) : Option Run :=
  andThen (some (write_string env s Fd.STDOUT_FILENO (utf8 "Родитель: Отправка команды ")))
    fun s1 =>
  andThen (write_int env s1 Fd.STDOUT_FILENO s.line_number) fun s2 =>
  andThen (some (write_string env s2 Fd.STDOUT_FILENO (utf8 ": "))) fun s3 =>
  andThen (some (write_string env s3 Fd.STDOUT_FILENO (s.buffer.drop s.line))) fun s4 =>
  andThen (some (write_string env s4 Fd.STDOUT_FILENO (utf8 "\n"))) fun s5 =>
  -- write(pipefd[1], line, strlen(line));
  andThen (some (sysWrite env s5 Fd.pipefd1
    ((s.buffer.drop s.line).take (strlen s.buffer s.line)))) fun s6 =>
  -- write(pipefd[1], "\n", 1);
  andThen (some (sysWrite env s6 Fd.pipefd1 [NL])) fun s7 =>
  some (Run.alive (s7.emit (Event.sleep 1)))

/-- One evaluation of the condition of `while ((newline = strchr(line, '\n')) != NULL)`
followed, when it holds, by one pass through the body. -/
def lineStep (env : Env) (s : PumpState) : Option Step :=
  match strchr s.buffer s.line NL with
  | none => some (Step.done s)
  | some newline =>
    -- *newline = '\0';
    let s := { s with buffer := s.buffer.set newline 0 }
    -- line_number++;
    let s := { s with line_number := s.line_number + 1 }
    if strlen s.buffer s.line = 0 then
      -- line = newline + 1; continue;
      some (Step.next { s with line := newline + 1 })
    else
      let seen := child_failed env s.trace.length
      let s := s.emit (Event.poll seen)
      if seen then
        match write_string env s Fd.STDOUT_FILENO
          (utf8 "Родитель: Остановка из-за ошибки\n") with
        | Run.killed s => some (Step.killed s)
        | Run.alive s => some (Step.stop s)
      else
        match sendLine env s with
        | none => none
        | some (Run.killed s) => some (Step.killed s)
        -- line = newline + 1;
        | some (Run.alive s) => some (Step.next { s with line := newline + 1 })

/-- The inner `while` loop. Every pass moves `line` forward by at least one byte, so
`BUFFER_SIZE` passes are enough; `none` means the fuel ran out. -/
def scanLines (env : Env) : Nat → PumpState → Option Run
  | 0, _ => none
  | fuel + 1, s =>
    match lineStep env s with
    | none => none
    | some (Step.done s) => some (Run.alive s)
    | some (Step.stop s) => some (Run.alive s)
    | some (Step.killed s) => some (Run.killed s)
    | some (Step.next s) => scanLines env fuel s

/-- The outer loop `while ((bytes_read = read(file_fd, buffer, sizeof(buffer) - 1)) > 0)`;
the argument is the data still to be offered to `read`. -/
def pumpLoop (env : Env) : List (List Nat) → PumpState → Option Run
  | [], s => some (Run.alive (s.emit (Event.read Fd.file_fd (BUFFER_SIZE - 1) [])))
  | chunk :: rest, s =>
    -- read stores at most `count` bytes
    let got := chunk.take (BUFFER_SIZE - 1)
    let bytes_read := got.length
    let s := s.emit (Event.read Fd.file_fd (BUFFER_SIZE - 1) got)
    if bytes_read > 0 then
      let s := { s with buffer := got ++ s.buffer.drop bytes_read }
      -- buffer[bytes_read] = '\0';
      let s := { s with buffer := s.buffer.set bytes_read 0 }
      -- char *line = buffer;
      let s := { s with line := 0 }
      match scanLines env BUFFER_SIZE s with
      | none => none
      | some (Run.killed s) => some (Run.killed s)
      | some (Run.alive s) =>
        -- if (child_failed) break;
        let seen := child_failed env s.trace.length
        let s := s.emit (Event.poll seen)
        if seen then some (Run.alive s) else pumpLoop env rest s
    else some (Run.alive s)

/-! ## Wait status -/

/-- The macro `WTERMSIG` of `<sys/wait.h>` (Linux encoding): `status & 0x7f`. -/
def WTERMSIG (status : Nat) : Nat := status % 128

/-- The macro `WIFEXITED` of `<sys/wait.h>` (Linux encoding): `WTERMSIG(status) == 0`. -/
def WIFEXITED (status : Nat) : Bool := decide (WTERMSIG status = 0)

/-- The macro `WEXITSTATUS` of `<sys/wait.h>` (Linux encoding): `(status & 0xff00) >> 8`. -/
def WEXITSTATUS (status : Nat) : Nat := (status / 256) % 256

/-- The macro `WIFSIGNALED` of `<sys/wait.h>` (Linux encoding):
`((signed char) ((status & 0x7f) + 1) >> 1) > 0`. -/
def WIFSIGNALED (status : Nat) : Bool :=
  decide (1 ≤ WTERMSIG status ∧ WTERMSIG status ≤ 126)

/-- The statements of `main` after `waitpid`: the report of the child's status. -/
def reportStatus (env : Env) (s : PumpState) (status : Nat) : Option Run :=
  if WIFEXITED status then
    andThen (some (write_string env s Fd.STDOUT_FILENO
      (utf8 "Родитель: Дочерний процесс завершен с кодом: "))) fun s =>
    andThen (write_int env s Fd.STDOUT_FILENO (WEXITSTATUS status)) fun s =>
    andThen (some (write_string env s Fd.STDOUT_FILENO (utf8 "\n"))) fun s =>
    some (write_string env s Fd.STDOUT_FILENO (utf8 "Родитель: Завершение работы\n"))
  else
    some (write_string env s Fd.STDOUT_FILENO (utf8 "Родитель: Завершение работы\n"))

/-! ## The parent branch of `main` -/

/-- The state in which the parent branch starts. -/
def initState (env : Env) : PumpState :=
  { buffer := (List.range BUFFER_SIZE).map env.garbage
    line := 0
    line_number := 0
    trace := [] }

/-- The statements of the parent branch up to the pump: `close(pipefd[0])` and the banner. -/
def banner (env : Env) (s : PumpState) : Option Run :=
  let s := s.emit (Event.close Fd.pipefd0)
  andThen (some (write_string env s Fd.STDOUT_FILENO (utf8 "Родительский процесс PID: ")))
    fun s =>
  andThen (write_int env s Fd.STDOUT_FILENO env.self_pid) fun s =>
  andThen (some (write_string env s Fd.STDOUT_FILENO (utf8 "\nДочерний процесс PID: ")))
    fun s =>
  andThen (write_int env s Fd.STDOUT_FILENO env.pid) fun s =>
  andThen (some (write_string env s Fd.STDOUT_FILENO (utf8 "\nФайл: "))) fun s =>
  andThen (some (write_string env s Fd.STDOUT_FILENO env.argv1)) fun s =>
  some (write_string env s Fd.STDOUT_FILENO (utf8 "\n\n"))

/-- The statements after the pump: both `close` calls, `waitpid` and the report. -/
def drain (env : Env) (s : PumpState) : Option Run :=
  let s := s.emit (Event.close Fd.pipefd1)
  let s := s.emit (Event.close Fd.file_fd)
  let s := s.emit (Event.waitpid env.pid env.status)
  reportStatus env s env.status

/-- The parent branch of `main` (the `else` of `if (pid == 0)`), from `close(pipefd[0])` to
the last `write_string`. -/
def runParent (env : Env) : Option Run :=
  andThen (banner env (initState env)) fun s =>
  andThen (pumpLoop env env.reads s) fun s =>
  drain env s

/-! ## Observations on a trace -/

/-- The data of a `write` on the write end of the pipe. -/
def Event.pipeData : Event → Option (List Nat)
  | Event.write Fd.pipefd1 data _ => some data
  | _ => none

/-- The bytes a `write` on the write end of the pipe delivered (none unless it wrote). -/
def Event.delivered : Event → List Nat
  | Event.write Fd.pipefd1 data WriteResult.done => data
  | _ => []

/-- Whether the event is a `write` that ended the process. -/
def Event.isKill : Event → Bool
  | Event.write _ _ WriteResult.killed => true
  | _ => false

/-- Whether the event is a call of `read`. -/
def Event.isRead : Event → Bool
  | Event.read _ _ _ => true
  | _ => false

/-- Whether the event is a call of `sleep`. -/
def Event.isSleep : Event → Bool
  | Event.sleep _ => true
  | _ => false

/-- Whether the event is a call of `waitpid`. -/
def Event.isWait : Event → Bool
  | Event.waitpid _ _ => true
  | _ => false

/-- The event as the code sees it: a `write` that returned `-1` looks like one that wrote,
since no result of `write` is inspected. -/
def Event.forgetFailure : Event → Event
  | Event.write fd data WriteResult.failed => Event.write fd data WriteResult.done
  | e => e

/-- The data of the `write` calls on the write end of the pipe, in order. -/
def pipeWrites (tr : List Event) : List (List Nat) :=
  tr.filterMap Event.pipeData

/-- The bytes that reached the pipe: the data of the `write` calls on it that succeeded. -/
def pipeBytes (tr : List Event) : List Nat :=
  tr.flatMap Event.delivered

/-- The number of `read` calls in a trace. -/
def readCount (tr : List Event) : Nat :=
  tr.countP Event.isRead

/-- The number of `sleep` calls in a trace: the sends that were carried through. -/
def sleepCount (tr : List Event) : Nat :=
  tr.countP Event.isSleep

/-- The ASCII bytes of a string literal. -/
def ascii (str : String) : List Nat :=
  str.toList.map Char.toNat

/-- A standard environment: the file is handed out as `chunks`, the signal arrives as
`raisedAt` says, and every `write` succeeds. -/
def mkEnv (chunks : List (List Nat)) (raisedAt : Option Nat) : Env :=
  { reads := chunks
    raisedAt := raisedAt
    writeOutcome := fun _ _ => Outcome.done
    sigpipe_ignored := false
    garbage := fun _ => 0
    self_pid := 100
    pid := 101
    status := 0
    argv1 := utf8 "cmds.txt" }

/-- The way `read` hands out a regular file: `BUFFER_SIZE - 1` bytes at a time (`fuel`
bounds the number of chunks). -/
def fileChunks : Nat → List Nat → List (List Nat)
  | 0, _ => []
  | fuel + 1, file =>
    if file = [] then []
    else file.take (BUFFER_SIZE - 1) :: fileChunks fuel (file.drop (BUFFER_SIZE - 1))

/-! ## A functional description of the trace -/

/-- The bytes `write_string` writes for the string `str`: those before its first NUL. -/
def lit (str : String) : List Nat :=
  (utf8 str).take (strlenFrom (utf8 str))

/-- The bytes `write_int` writes, as a total function (see `write_int_bytes_total`). -/
def intBytes (num : Int) : List Nat :=
  (write_int_bytes num).getD []

/-- The bytes of a byte string that come before its first NUL (all of it if it has none). -/
def untilNul : List Nat → List Nat
  | [] => []
  | b :: bs => if b = 0 then [] else b :: untilNul bs

/-- The newline-terminated records of a byte string, in order, without their newline;
`cur` holds the bytes of the record being read. What follows the last newline is not a
record. -/
def recordsFrom (cur : List Nat) : List Nat → List (List Nat)
  | [] => []
  | b :: bs => if b = NL then cur :: recordsFrom [] bs else recordsFrom (cur ++ [b]) bs

/-- The newline-terminated records of a byte string. -/
def records (bytes : List Nat) : List (List Nat) :=
  recordsFrom [] bytes

/-- The nine events of sending the command `r`, the first of them being event number `t`,
with `ln` the value of `line_number` that is printed. -/
def sendBlock (env : Env) (t : Nat) (ln : Int) (r : List Nat) : List Event :=
  [ Event.poll false,
    Event.write Fd.STDOUT_FILENO (lit "Родитель: Отправка команды ")
        (writeResult env Fd.STDOUT_FILENO (t + 1)),
    Event.write Fd.STDOUT_FILENO (intBytes ln) (writeResult env Fd.STDOUT_FILENO (t + 2)),
    Event.write Fd.STDOUT_FILENO (lit ": ") (writeResult env Fd.STDOUT_FILENO (t + 3)),
    Event.write Fd.STDOUT_FILENO r (writeResult env Fd.STDOUT_FILENO (t + 4)),
    Event.write Fd.STDOUT_FILENO (lit "\n") (writeResult env Fd.STDOUT_FILENO (t + 5)),
    Event.write Fd.pipefd1 r (writeResult env Fd.pipefd1 (t + 6)),
    Event.write Fd.pipefd1 [NL] (writeResult env Fd.pipefd1 (t + 7)),
    Event.sleep 1 ]

/-- The two events of the `break` branch, the first of them being event number `t`. -/
def stopBlock (env : Env) (t : Nat) : List Event :=
  [ Event.poll true,
    Event.write Fd.STDOUT_FILENO (lit "Родитель: Остановка из-за ошибки\n")
      (writeResult env Fd.STDOUT_FILENO (t + 1)) ]

/-- The events of the inner loop over the records `recs`, started when `t` events have
happened and `line_number` is `ln`. -/
def scanTrace (env : Env) : List (List Nat) → Nat → Int → List Event
  | [], _, _ => []
  | r :: rs, t, ln =>
    if r = [] then scanTrace env rs t (ln + 1)
    else if child_failed env t then stopBlock env t
    else sendBlock env t (ln + 1) r ++ scanTrace env rs (t + 9) (ln + 1)

/-- The events of the outer loop over the data `chunks` still to be read, started when `t`
events have happened and `line_number` is `ln`. -/
def pumpTrace (env : Env) : List (List Nat) → Nat → Int → List Event
  | [], _, _ => [Event.read Fd.file_fd (BUFFER_SIZE - 1) []]
  | chunk :: rest, t, ln =>
    let got := chunk.take (BUFFER_SIZE - 1)
    if got = [] then [Event.read Fd.file_fd (BUFFER_SIZE - 1) []]
    else
      let recs := records (untilNul got)
      let body := scanTrace env recs (t + 1) ln
      let t1 := t + 1 + body.length
      Event.read Fd.file_fd (BUFFER_SIZE - 1) got :: body ++
        Event.poll (child_failed env t1) ::
          (if child_failed env t1 then [] else pumpTrace env rest (t1 + 1) (ln + recs.length))

/-! ## The end of the process by `SIGPIPE` -/

/-- Whether a list of events holds a `write` that ends the process. -/
def hasKill (tr : List Event) : Bool :=
  tr.any Event.isKill

/-- The part of a list of events that happens: the events up to and including the first
`write` that ends the process (all of them if there is none). -/
def cut : List Event → List Event
  | [] => []
  | e :: es => if e.isKill then [e] else e :: cut es

/-- Where the events `ext`, none of which changes a local, leave a process that is in
state `s`. -/
def finish (s : PumpState) (ext : List Event) : Run :=
  if hasKill ext then Run.killed { s with trace := s.trace ++ cut ext }
  else Run.alive { s with trace := s.trace ++ ext }

/-- The events of a sequence of `write` calls, the first of them being event number `t`. -/
def stampWrites (env : Env) : Nat → List (Fd × List Nat) → List Event
  | _, [] => []
  | t, w :: ws => Event.write w.1 w.2 (writeResult env w.1 t) :: stampWrites env (t + 1) ws

/-- A sequence of `write` calls. -/
def writeAll (env : Env) : List (Fd × List Nat) → PumpState → Option Run
  | [], s => some (Run.alive s)
  | w :: ws, s => andThen (some (sysWrite env s w.1 w.2)) (writeAll env ws)

/-- Every `write` of the list `tr`, whose first event is event number `t`, ended as the
environment decides for its descriptor and its moment. -/
def stamped (env : Env) : Nat → List Event → Prop
  | _, [] => True
  | t, e :: es =>
    (∀ fd d res, e = Event.write fd d res → res = writeResult env fd t) ∧ stamped env (t + 1) es

/-! ## Reference notions for the claims -/

/-- The decimal digits of a natural number, most significant first, as ASCII bytes. -/
def decimalDigits (n : Nat) : List Nat :=
  if n = 0 then [48] else ((Nat.digits 10 n).reverse).map (fun d => d + 48)

/-- The canonical decimal representation of an integer, as ASCII bytes. -/
def canonicalDecimal (z : Int) : List Nat :=
  if z < 0 then 45 :: decimalDigits z.natAbs else decimalDigits z.natAbs

/-- The bytes a chunk contributes to the pipe when nothing interrupts the pump: every
non-empty newline-terminated record of the chunk's part before its first NUL, each followed
by one newline. -/
def chunkOutput (chunk : List Nat) : List Nat :=
  ((records (untilNul chunk)).filter (fun r => r ≠ [])).flatMap
    (fun r => r ++ [NL])

/-- The events of the parent branch before the pump. -/
def bannerTrace (env : Env) : List Event :=
  [ Event.close Fd.pipefd0,
    Event.write Fd.STDOUT_FILENO (lit "Родительский процесс PID: ")
        (writeResult env Fd.STDOUT_FILENO 1),
    Event.write Fd.STDOUT_FILENO (intBytes env.self_pid) (writeResult env Fd.STDOUT_FILENO 2),
    Event.write Fd.STDOUT_FILENO (lit "\nДочерний процесс PID: ")
        (writeResult env Fd.STDOUT_FILENO 3),
    Event.write Fd.STDOUT_FILENO (intBytes env.pid) (writeResult env Fd.STDOUT_FILENO 4),
    Event.write Fd.STDOUT_FILENO (lit "\nФайл: ") (writeResult env Fd.STDOUT_FILENO 5),
    Event.write Fd.STDOUT_FILENO (env.argv1.take (strlenFrom env.argv1))
        (writeResult env Fd.STDOUT_FILENO 6),
    Event.write Fd.STDOUT_FILENO (lit "\n\n") (writeResult env Fd.STDOUT_FILENO 7) ]

/-- The events of the report on the wait status `status`, the first of them being event
number `t`. -/
def reportTrace (env : Env) (t : Nat) (status : Nat) : List Event :=
  if WIFEXITED status then
    [ Event.write Fd.STDOUT_FILENO (lit "Родитель: Дочерний процесс завершен с кодом: ")
        (writeResult env Fd.STDOUT_FILENO t),
      Event.write Fd.STDOUT_FILENO (intBytes (WEXITSTATUS status))
          (writeResult env Fd.STDOUT_FILENO (t + 1)),
      Event.write Fd.STDOUT_FILENO (lit "\n") (writeResult env Fd.STDOUT_FILENO (t + 2)),
      Event.write Fd.STDOUT_FILENO (lit "Родитель: Завершение работы\n")
          (writeResult env Fd.STDOUT_FILENO (t + 3)) ]
  else
    [ Event.write Fd.STDOUT_FILENO (lit "Родитель: Завершение работы\n")
        (writeResult env Fd.STDOUT_FILENO t) ]

/-- The events of the parent branch after the pump, the first of them being event number
`t`. -/
def drainTrace (env : Env) (t : Nat) : List Event :=
  [ Event.close Fd.pipefd1, Event.close Fd.file_fd, Event.waitpid env.pid env.status ] ++
    reportTrace env (t + 3) env.status

/-- The events of the pump of the parent branch. -/
def pumpEvents (env : Env) : List Event :=
  pumpTrace env env.reads 8 0

/-- The events of the whole parent branch. -/
def parentTrace (env : Env) : List Event :=
  bannerTrace env ++ pumpEvents env ++ drainTrace env (8 + (pumpEvents env).length)

/-- An environment in which the child exits, closing the read end of the pipe, once `since`
events of the parent's main flow have happened: from then on every `write` on the pipe
finds it broken. No interrupt arrives, and every other `write` succeeds. -/
def mkEnvBroken (chunks : List (List Nat)) (since : Nat) (ignored : Bool) : Env :=
  { mkEnv chunks none with
    writeOutcome := fun fd t =>
      if fd = Fd.pipefd1 ∧ since ≤ t then Outcome.brokenPipe else Outcome.done
    sigpipe_ignored := ignored }

/-- A state of the pump with the given buffer, scan position and line counter, and an empty
trace. -/
def mkState (buffer : List Nat) (line : Nat) (line_number : Int) : PumpState :=
  { buffer := buffer, line := line, line_number := line_number, trace := [] }

/-- Whether the event is neither a `write` on the pipe, nor a `read`, nor a `sleep`. -/
def Event.isQuiet (e : Event) : Bool :=
  e.pipeData.isNone && !e.isRead && !e.isSleep

/-! ## `write_int` -/


theorem digitChar_ofNat (n : Nat) : digitChar (n : Int) = n % 10 + 48 := by
  unfold digitChar
  have e : Int.tmod (n : Int) 10 = ((n % 10 : Nat) : Int) := (Int.ofNat_tmod n 10).symm
  rw [e]
  have h : n % 10 < 10 := Nat.mod_lt _ (by decide)
  omega

theorem digitLoop_ofNat (fuel : Nat) : ∀ (n : Nat) (buf : List Nat), n < 10 ^ (fuel + 1) →
    digitLoop (fuel + 1) (n : Int) buf = some (buf ++ (decimalDigits n).reverse) := by
  induction fuel with
  | zero =>
    intro n buf hn
    have hn : n < 10 := by simpa using hn
    have hdiv : Int.tdiv (n : Int) 10 = 0 := by
      have e : Int.tdiv (n : Int) 10 = ((n / 10 : Nat) : Int) := (Int.ofNat_tdiv n 10).symm
      rw [e, Nat.div_eq_of_lt hn]; rfl
    simp only [digitLoop, hdiv, digitChar_ofNat]
    simp only [gt_iff_lt, lt_self_iff_false, if_false, Option.some.injEq, List.append_cancel_left_eq]
    unfold decimalDigits
    by_cases h0 : n = 0
    · subst h0; simp
    · have : Nat.digits 10 n = [n] := Nat.digits_of_lt 10 n h0 hn
      simp [h0, this, Nat.mod_eq_of_lt hn]
  | succ fuel ih =>
    intro n buf hn
    have hdiv : Int.tdiv (n : Int) 10 = ((n / 10 : Nat) : Int) := (Int.ofNat_tdiv n 10).symm
    rw [digitLoop]
    simp only [hdiv, digitChar_ofNat]
    by_cases hq : n / 10 = 0
    · have hlt : n < 10 := by omega
      simp only [hq]
      simp only [Nat.cast_zero, gt_iff_lt, lt_self_iff_false, if_false, Option.some.injEq,
        List.append_cancel_left_eq]
      unfold decimalDigits
      by_cases h0 : n = 0
      · subst h0; simp
      · have : Nat.digits 10 n = [n] := Nat.digits_of_lt 10 n h0 hlt
        simp [h0, this, Nat.mod_eq_of_lt hlt]
    · have hpos : (0 : Int) < ((n / 10 : Nat) : Int) := by omega
      have hn0 : n ≠ 0 := by rintro rfl; simp at hq
      have hlt : n / 10 < 10 ^ (fuel + 1) := by
        rw [Nat.div_lt_iff_lt_mul (by decide)]
        calc n < 10 ^ (fuel + 1 + 1) := hn
          _ = 10 ^ (fuel + 1) * 10 := by ring
      simp only [gt_iff_lt, hpos, if_true]
      rw [ih (n / 10) _ hlt]
      unfold decimalDigits
      have hd : Nat.digits 10 n = n % 10 :: Nat.digits 10 (n / 10) :=
        Nat.digits_def' (by decide) (Nat.pos_of_ne_zero hn0)
      simp [hn0, hq, hd]


theorem decimalDigits_length (n : Nat) (k : Nat) (hk : 0 < k) (h : n < 10 ^ k) :
    (decimalDigits n).length ≤ k := by
  unfold decimalDigits
  by_cases h0 : n = 0
  · simp [h0]; omega
  · simp only [h0, if_false, List.length_map, List.length_reverse]
    have h1 := Nat.base_pow_length_digits_le 10 n (by decide) h0
    have h2 : 10 ^ (Nat.digits 10 n).length < 10 ^ (k + 1) := by
      calc 10 ^ (Nat.digits 10 n).length ≤ 10 * n := h1
        _ < 10 * 10 ^ k := by omega
        _ = 10 ^ (k + 1) := by ring
    exact Nat.lt_succ_iff.mp ((Nat.pow_lt_pow_iff_right (by decide)).mp h2)

theorem reverseLoop_eq_reverse : ∀ (buf : List Nat), buf.length ≤ 12 →
    reverseLoop buf.length (buf.length / 2) 0 buf = buf.reverse
  | [], _ => by simp [reverseLoop, swapBytes]
  | [_], _ => by simp [reverseLoop, swapBytes]
  | [_, _], _ => by simp [reverseLoop, swapBytes]
  | [_, _, _], _ => by simp [reverseLoop, swapBytes]
  | [_, _, _, _], _ => by simp [reverseLoop, swapBytes]
  | [_, _, _, _, _], _ => by simp [reverseLoop, swapBytes]
  | [_, _, _, _, _, _], _ => by simp [reverseLoop, swapBytes]
  | [_, _, _, _, _, _, _], _ => by simp [reverseLoop, swapBytes]
  | [_, _, _, _, _, _, _, _], _ => by simp [reverseLoop, swapBytes]
  | [_, _, _, _, _, _, _, _, _], _ => by simp [reverseLoop, swapBytes]
  | [_, _, _, _, _, _, _, _, _, _], _ => by simp [reverseLoop, swapBytes]
  | [_, _, _, _, _, _, _, _, _, _, _], _ => by simp [reverseLoop, swapBytes]
  | [_, _, _, _, _, _, _, _, _, _, _, _], _ => by simp [reverseLoop, swapBytes]
  | _ :: _ :: _ :: _ :: _ :: _ :: _ :: _ :: _ :: _ :: _ :: _ :: _ :: _, h => by
    simp only [List.length_cons] at h; omega

theorem wrap32_of_range (z : Int) (h1 : -2147483648 ≤ z) (h2 : z < 2147483648) : wrap32 z = z := by
  unfold wrap32; omega

theorem wrap32_range (z : Int) : -2147483648 ≤ wrap32 z ∧ wrap32 z < 2147483648 := by
  unfold wrap32; omega

/-- For every `int` other than `INT_MIN`, `write_int` hands the canonical decimal
representation to `write`. -/
theorem write_int_bytes_canonical (num : Int) (h1 : -2147483648 < num) (h2 : num < 2147483648) :
    write_int_bytes num = some (canonicalDecimal num) := by
  unfold write_int_bytes canonicalDecimal
  rw [wrap32_of_range num (by omega) h2]
  by_cases hneg : num < 0
  · obtain ⟨m, hm⟩ : ∃ m : Nat, -num = (m : Int) := ⟨(-num).toNat, by omega⟩
    have hmlt : m < 10 ^ 10 := by norm_num; omega
    have hnat : num.natAbs = m := by omega
    have hlen := decimalDigits_length m 10 (by decide) hmlt
    simp only [hneg, if_true, decide_True]
    rw [wrap32_of_range (-num) (by omega) (by omega), hm,
      digitLoop_ofNat 31 m [] (lt_of_lt_of_le hmlt (by norm_num))]
    simp only [List.nil_append, List.length_reverse, hnat]
    rw [if_neg (by simp; omega)]
    rw [reverseLoop_eq_reverse _ (by simp; omega)]
    simp
  · obtain ⟨m, hm⟩ : ∃ m : Nat, num = (m : Int) := ⟨num.toNat, by omega⟩
    have hmlt : m < 10 ^ 10 := by norm_num; omega
    have hnat : num.natAbs = m := by omega
    have hlen := decimalDigits_length m 10 (by decide) hmlt
    simp only [hneg, if_false, decide_False]
    rw [hm, digitLoop_ofNat 31 m [] (lt_of_lt_of_le hmlt (by norm_num))]
    simp only [List.nil_append, List.length_reverse]
    rw [if_neg (by simp)]
    have hnat' : (m : Int).natAbs = m := by omega
    rw [reverseLoop_eq_reverse _ (by simp; omega)]
    simp [hnat']


theorem write_int_bytes_total (num : Int) : write_int_bytes num = some (intBytes num) := by
  have hr := wrap32_range num
  by_cases hmin : wrap32 num = -2147483648
  · have : write_int_bytes num = some [45, 40] := by
      unfold write_int_bytes
      rw [hmin]
      decide
    simp [intBytes, this]
  · have hw : write_int_bytes num = write_int_bytes (wrap32 num) := by
      unfold write_int_bytes
      rw [wrap32_of_range (wrap32 num) hr.1 hr.2]
    have := write_int_bytes_canonical (wrap32 num) (by omega) hr.2
    simp [intBytes, hw, this]

theorem write_int_eq (env : Env) (s : PumpState) (fd : Fd) (num : Int) :
    write_int env s fd num = some (sysWrite env s fd (intBytes num)) := by
  unfold write_int
  rw [write_int_bytes_total]

theorem intBytes_length_le (num : Int) : (intBytes num).length ≤ 11 := by
  have hr := wrap32_range num
  by_cases hmin : wrap32 num = -2147483648
  · have : write_int_bytes num = some [45, 40] := by
      unfold write_int_bytes
      rw [hmin]
      decide
    simp [intBytes, this]
  · have hw : write_int_bytes num = write_int_bytes (wrap32 num) := by
      unfold write_int_bytes
      rw [wrap32_of_range (wrap32 num) hr.1 hr.2]
    have := write_int_bytes_canonical (wrap32 num) (by omega) hr.2
    simp only [intBytes, hw, this, Option.getD_some]
    unfold canonicalDecimal
    have hl := decimalDigits_length (wrap32 num).natAbs 10 (by decide) (by norm_num; omega)
    split <;> simp <;> omega


/-! ## C strings and records -/

theorem strchrFrom_found (c : Nat) (hc : c ≠ 0) : ∀ (seg rest : List Nat) (i : Nat),
    c ∉ seg → 0 ∉ seg → strchrFrom c (seg ++ c :: rest) i = some (i + seg.length)
  | [], rest, i, _, _ => by simp [strchrFrom]
  | b :: seg, rest, i, h1, h0 => by
    have hb : b ≠ c := fun e => h1 (by simp [e])
    have hb0 : b ≠ 0 := fun e => h0 (by simp [e])
    have ih := strchrFrom_found c hc seg rest (i + 1)
      (fun h => h1 (List.mem_cons_of_mem _ h)) (fun h => h0 (List.mem_cons_of_mem _ h))
    show strchrFrom c (b :: (seg ++ c :: rest)) i = _
    rw [strchrFrom, if_neg hb, if_neg hb0, ih, List.length_cons]
    congr 1; omega

theorem strchrFrom_none (c : Nat) : ∀ (a rest : List Nat) (i : Nat),
    c ∉ a → 0 ∉ a → c ≠ 0 → strchrFrom c (a ++ 0 :: rest) i = none
  | [], rest, i, _, _, hc => by simp [strchrFrom, Ne.symm hc]
  | b :: a, rest, i, h1, h0, hc => by
    have hb : b ≠ c := fun e => h1 (by simp [e])
    have hb0 : b ≠ 0 := fun e => h0 (by simp [e])
    have ih := strchrFrom_none c a rest (i + 1)
      (fun h => h1 (List.mem_cons_of_mem _ h)) (fun h => h0 (List.mem_cons_of_mem _ h)) hc
    show strchrFrom c (b :: (a ++ 0 :: rest)) i = _
    rw [strchrFrom, if_neg hb, if_neg hb0, ih]

theorem strlenFrom_terminated : ∀ (seg rest : List Nat), 0 ∉ seg →
    strlenFrom (seg ++ 0 :: rest) = seg.length
  | [], rest, _ => by simp [strlenFrom]
  | b :: seg, rest, h0 => by
    have hb0 : b ≠ 0 := fun e => h0 (by simp [e])
    have ih := strlenFrom_terminated seg rest (fun h => h0 (List.mem_cons_of_mem _ h))
    simp [strlenFrom, hb0, ih]

theorem set_at_length (seg rest : List Nat) (x v : Nat) :
    (seg ++ x :: rest).set seg.length v = seg ++ v :: rest := by
  rw [List.set_append_right _ _ (le_refl _)]
  simp

theorem drop_set_at (mem : List Nat) (line : Nat) (seg rest : List Nat) (x v : Nat)
    (h : mem.drop line = seg ++ x :: rest) :
    (mem.set (line + seg.length) v).drop line = seg ++ v :: rest := by
  rw [← List.set_drop, h, set_at_length]

theorem drop_past_set (mem : List Nat) (line : Nat) (seg rest : List Nat) (x v : Nat)
    (h : mem.drop line = seg ++ x :: rest) :
    (mem.set (line + seg.length) v).drop (line + seg.length + 1) = rest := by
  have h1 := drop_set_at mem line seg rest x v h
  have h2 : line + seg.length + 1 = line + (seg.length + 1) := by omega
  rw [h2, ← List.drop_drop, h1]
  simp

theorem recordsFrom_found : ∀ (seg cur rest : List Nat), NL ∉ seg →
    recordsFrom cur (seg ++ NL :: rest) = (cur ++ seg) :: recordsFrom [] rest
  | [], cur, rest, _ => by simp [recordsFrom]
  | b :: seg, cur, rest, h => by
    have hb : b ≠ NL := fun e => h (by simp [e])
    have ih := recordsFrom_found seg (cur ++ [b]) rest (fun h' => h (List.mem_cons_of_mem _ h'))
    simp [recordsFrom, hb, ih]

theorem recordsFrom_none : ∀ (a cur : List Nat), NL ∉ a → recordsFrom cur a = []
  | [], _, _ => rfl
  | b :: a, cur, h => by
    have hb : b ≠ NL := fun e => h (by simp [e])
    have ih := recordsFrom_none a (cur ++ [b]) (fun h' => h (List.mem_cons_of_mem _ h'))
    simp [recordsFrom, hb, ih]

theorem records_found (seg rest : List Nat) (h : NL ∉ seg) :
    records (seg ++ NL :: rest) = seg :: records rest := by
  simpa [records] using recordsFrom_found seg [] rest h

theorem records_none (a : List Nat) (h : NL ∉ a) : records a = [] :=
  recordsFrom_none a [] h

theorem untilNul_split : ∀ (l tl : List Nat), ∃ tl', l ++ 0 :: tl = untilNul l ++ 0 :: tl'
  | [], tl => ⟨tl, by simp [untilNul]⟩
  | b :: l, tl => by
    by_cases hb : b = 0
    · subst hb
      exact ⟨l ++ 0 :: tl, by simp [untilNul]⟩
    · obtain ⟨tl', h⟩ := untilNul_split l tl
      refine ⟨tl', ?_⟩
      simp [untilNul, hb, h]

theorem zero_not_mem_untilNul : ∀ (l : List Nat), 0 ∉ untilNul l
  | [] => by simp [untilNul]
  | b :: l => by
    by_cases hb : b = 0
    · simp [untilNul, hb]
    · simp [untilNul, hb, zero_not_mem_untilNul l, Ne.symm hb]

theorem untilNul_length_le : ∀ (l : List Nat), (untilNul l).length ≤ l.length
  | [] => by simp [untilNul]
  | b :: l => by
    have ih := untilNul_length_le l
    by_cases hb : b = 0
    · simp [untilNul, hb]
    · simp [untilNul, hb]; exact ih

theorem untilNul_of_not_mem : ∀ (l : List Nat), 0 ∉ l → untilNul l = l
  | [], _ => rfl
  | b :: l, h => by
    have hb : b ≠ 0 := fun e => h (by simp [e])
    simp [untilNul, hb, untilNul_of_not_mem l (fun h' => h (List.mem_cons_of_mem _ h'))]

/-! ## The end of the process by `SIGPIPE` -/

theorem hasKill_cons (e : Event) (es : List Event) :
    hasKill (e :: es) = (e.isKill || hasKill es) := rfl

theorem hasKill_append (a b : List Event) : hasKill (a ++ b) = (hasKill a || hasKill b) := by
  simp [hasKill]

theorem cut_of_noKill : ∀ (l : List Event), hasKill l = false → cut l = l
  | [], _ => rfl
  | e :: es, h => by
    rw [hasKill_cons, Bool.or_eq_false_iff] at h
    simp [cut, h.1, cut_of_noKill es h.2]

theorem cut_append_kill : ∀ (a b : List Event), hasKill a = true → cut (a ++ b) = cut a
  | [], _, h => by simp [hasKill] at h
  | e :: es, b, h => by
    rw [hasKill_cons] at h
    by_cases he : e.isKill = true
    · simp [cut, he]
    · have hes : hasKill es = true := by simpa [he] using h
      simp [cut, he, cut_append_kill es b hes]

theorem cut_append_noKill : ∀ (a b : List Event), hasKill a = false → cut (a ++ b) = a ++ cut b
  | [], _, _ => rfl
  | e :: es, b, h => by
    rw [hasKill_cons, Bool.or_eq_false_iff] at h
    simp [cut, h.1, cut_append_noKill es b h.2]

theorem hasKill_cut : ∀ (l : List Event), hasKill (cut l) = hasKill l
  | [] => rfl
  | e :: es => by
    by_cases he : e.isKill = true
    · simp [cut, he, hasKill_cons]
    · simp [cut, he, hasKill_cons, hasKill_cut es]

theorem cut_eq_take : ∀ (l : List Event),
    ∃ n, n ≤ l.length ∧ cut l = l.take n ∧ (hasKill l = false → n = l.length)
  | [] => ⟨0, Nat.le_refl _, rfl, fun _ => rfl⟩
  | e :: es => by
    by_cases he : e.isKill = true
    · exact ⟨1, by simp, by simp [cut, he], by simp [hasKill_cons, he]⟩
    · obtain ⟨n, hn, hc, hl⟩ := cut_eq_take es
      refine ⟨n + 1, by simpa using hn, by simp [cut, he, hc], ?_⟩
      intro h
      rw [hasKill_cons, Bool.or_eq_false_iff] at h
      simp [hl h.2]

theorem cut_kill_last : ∀ (l : List Event), hasKill l = true →
    ∃ pre fd d, cut l = pre ++ [Event.write fd d WriteResult.killed] ∧ hasKill pre = false
  | [], h => by simp [hasKill] at h
  | e :: es, h => by
    by_cases he : e.isKill = true
    · cases e with
      | write fd d res =>
        cases res with
        | killed => exact ⟨[], fd, d, by simp [cut, Event.isKill], rfl⟩
        | done => simp [Event.isKill] at he
        | failed => simp [Event.isKill] at he
      | read _ _ _ => simp [Event.isKill] at he
      | poll _ => simp [Event.isKill] at he
      | sleep _ => simp [Event.isKill] at he
      | close _ => simp [Event.isKill] at he
      | waitpid _ _ => simp [Event.isKill] at he
    · rw [hasKill_cons] at h
      have hes : hasKill es = true := by simpa [he] using h
      obtain ⟨pre, fd, d, hc, hp⟩ := cut_kill_last es hes
      refine ⟨e :: pre, fd, d, by simp [cut, he, hc], ?_⟩
      rw [hasKill_cons, hp]
      simpa using he

/-- A `write` that ends the process is the last event of what happens. -/
theorem cut_kill_is_last : ∀ (l pre post : List Event) (e : Event),
    cut l = pre ++ e :: post → e.isKill = true → post = []
  | [], pre, post, e, h, _ => by simp [cut] at h
  | x :: xs, pre, post, e, h, hk => by
    by_cases hx : x.isKill = true
    · simp only [cut, hx, if_true] at h
      cases pre with
      | nil => simpa using (List.cons.inj h).2.symm
      | cons p ps =>
        have := (List.cons.inj h).2
        simp at this
    · simp only [cut, hx] at h
      cases pre with
      | nil =>
        have h1 := (List.cons.inj h).1
        rw [h1] at hx
        exact absurd hk hx
      | cons p ps =>
        have h2 := (List.cons.inj h).2
        exact cut_kill_is_last xs ps post e h2 hk

theorem andThen_assoc (r : Option Run) (f g : PumpState → Option Run) :
    andThen (andThen r f) g = andThen r (fun s => andThen (f s) g) := by
  cases r with
  | none => rfl
  | some r => cases r <;> rfl

theorem andThen_alive (s : PumpState) (f : PumpState → Option Run) :
    andThen (some (Run.alive s)) f = f s := rfl

theorem andThen_some_alive (r : Option Run) :
    andThen r (fun s => some (Run.alive s)) = r := by
  cases r with
  | none => rfl
  | some r => cases r <;> rfl

theorem finish_nil (s : PumpState) : finish s [] = Run.alive s := by
  simp [finish, hasKill]

theorem writeAll_spec (env : Env) : ∀ (ws : List (Fd × List Nat)) (s : PumpState),
    writeAll env ws s = some (finish s (stampWrites env s.trace.length ws))
  | [], s => by simp [writeAll, stampWrites, finish_nil]
  | w :: ws, s => by
    by_cases hk : writeResult env w.1 s.trace.length = WriteResult.killed
    · simp [writeAll, sysWrite, hk, andThen, stampWrites, finish, hasKill_cons, Event.isKill,
        cut, PumpState.emit]
    · have ih := writeAll_spec env ws (s.emit (Event.write w.1 w.2
        (writeResult env w.1 s.trace.length)))
      have hik : (Event.write w.1 w.2 (writeResult env w.1 s.trace.length)).isKill = false := by
        cases h : writeResult env w.1 s.trace.length <;> simp_all [Event.isKill]
      simp only [writeAll, sysWrite, hk, if_false, andThen_alive]
      rw [ih]
      simp only [stampWrites, finish, hasKill_cons, hik, Bool.false_or, cut, PumpState.emit,
        List.length_append, List.length_singleton, List.append_assoc, List.singleton_append,
        Bool.false_eq_true, if_false]

theorem andThen_finish (s : PumpState) (ext : List Event) (f : PumpState → Option Run) :
    andThen (some (finish s ext)) f =
      if hasKill ext then some (Run.killed { s with trace := s.trace ++ cut ext })
      else f { s with trace := s.trace ++ ext } := by
  unfold finish
  split <;> rfl

/-! ## One pass of the inner loop -/

theorem strchr_found (mem : List Nat) (line : Nat) (seg rest : List Nat)
    (h : mem.drop line = seg ++ NL :: rest) (hn : NL ∉ seg) (h0 : 0 ∉ seg) :
    strchr mem line NL = some (line + seg.length) := by
  unfold strchr
  rw [h]
  exact strchrFrom_found NL (by decide) seg rest line hn h0

theorem strlen_after_set (mem : List Nat) (line : Nat) (seg rest : List Nat)
    (h : mem.drop line = seg ++ NL :: rest) (h0 : 0 ∉ seg) :
    strlen (mem.set (line + seg.length) 0) line = seg.length := by
  unfold strlen
  rw [drop_set_at mem line seg rest NL 0 h]
  exact strlenFrom_terminated seg rest h0

theorem line_bytes_after_set (mem : List Nat) (line : Nat) (seg rest : List Nat)
    (h : mem.drop line = seg ++ NL :: rest) (h0 : 0 ∉ seg) :
    ((mem.set (line + seg.length) 0).drop line).take (strlen (mem.set (line + seg.length) 0) line)
      = seg := by
  rw [strlen_after_set mem line seg rest h h0, drop_set_at mem line seg rest NL 0 h]
  exact List.take_left seg _

theorem lineStep_done (env : Env) (s : PumpState) (a tl : List Nat)
    (h : s.buffer.drop s.line = a ++ 0 :: tl) (h0 : 0 ∉ a) (hn : NL ∉ a) :
    lineStep env s = some (Step.done s) := by
  have hs : strchr s.buffer s.line NL = none := by
    unfold strchr
    rw [h]
    exact strchrFrom_none NL a tl s.line hn h0 (by decide)
  unfold lineStep
  rw [hs]

theorem lineStep_blank (env : Env) (s : PumpState) (rest : List Nat)
    (h : s.buffer.drop s.line = NL :: rest) :
    lineStep env s = some (Step.next
      { buffer := s.buffer.set s.line 0
        line := s.line + 1
        line_number := s.line_number + 1
        trace := s.trace }) := by
  have hs := strchr_found s.buffer s.line [] rest (by simpa using h) (by simp) (by simp)
  have hl := strlen_after_set s.buffer s.line [] rest (by simpa using h) (by simp)
  simp only [List.length_nil, Nat.add_zero] at hs hl
  unfold lineStep
  rw [hs]
  simp only [hl, if_true]

theorem andThen_writeAll_nil (env : Env) (s : PumpState) (g : PumpState → Option Run) :
    andThen (writeAll env [] s) g = g s := rfl

theorem andThen_writeAll_cons (env : Env) (w : Fd × List Nat) (ws : List (Fd × List Nat))
    (s : PumpState) (g : PumpState → Option Run) :
    andThen (writeAll env (w :: ws) s) g
      = andThen (some (sysWrite env s w.1 w.2)) (fun s1 => andThen (writeAll env ws s1) g) := by
  rw [writeAll, andThen_assoc]

/-- The `write` calls of sending the command at `line`, in order. -/
theorem sendLine_eq (env : Env) (s : PumpState) :
    sendLine env s = andThen (writeAll env
      [ (Fd.STDOUT_FILENO, lit "Родитель: Отправка команды "),
        (Fd.STDOUT_FILENO, intBytes s.line_number),
        (Fd.STDOUT_FILENO, lit ": "),
        (Fd.STDOUT_FILENO, (s.buffer.drop s.line).take (strlen s.buffer s.line)),
        (Fd.STDOUT_FILENO, lit "\n"),
        (Fd.pipefd1, (s.buffer.drop s.line).take (strlen s.buffer s.line)),
        (Fd.pipefd1, [NL]) ] s)
      (fun s7 => some (Run.alive (s7.emit (Event.sleep 1)))) := by
  simp only [andThen_writeAll_cons, andThen_writeAll_nil, sendLine, write_int_eq]
  rfl

theorem sendBlock_eq (env : Env) (t : Nat) (ln : Int) (r : List Nat) :
    sendBlock env t ln r = Event.poll false :: (stampWrites env (t + 1)
      [ (Fd.STDOUT_FILENO, lit "Родитель: Отправка команды "),
        (Fd.STDOUT_FILENO, intBytes ln),
        (Fd.STDOUT_FILENO, lit ": "),
        (Fd.STDOUT_FILENO, r),
        (Fd.STDOUT_FILENO, lit "\n"),
        (Fd.pipefd1, r),
        (Fd.pipefd1, [NL]) ] ++ [Event.sleep 1]) := by
  simp [sendBlock, stampWrites, Nat.add_assoc]

theorem cut_stopBlock (env : Env) (t : Nat) : cut (stopBlock env t) = stopBlock env t := by
  unfold stopBlock
  simp only [cut, Event.isKill, Bool.false_eq_true, if_false]
  split <;> rfl

theorem lineStep_stop (env : Env) (s : PumpState) (seg rest : List Nat)
    (h : s.buffer.drop s.line = seg ++ NL :: rest) (hne : seg ≠ []) (hn : NL ∉ seg)
    (h0 : 0 ∉ seg) (hf : child_failed env s.trace.length = true) :
    lineStep env s = some (
      if hasKill (stopBlock env s.trace.length) then
        Step.killed
          { buffer := s.buffer.set (s.line + seg.length) 0
            line := s.line
            line_number := s.line_number + 1
            trace := s.trace ++ stopBlock env s.trace.length }
      else
        Step.stop
          { buffer := s.buffer.set (s.line + seg.length) 0
            line := s.line
            line_number := s.line_number + 1
            trace := s.trace ++ stopBlock env s.trace.length }) := by
  have hs := strchr_found s.buffer s.line seg rest h hn h0
  have hl := strlen_after_set s.buffer s.line seg rest h h0
  have hpos : seg.length ≠ 0 := fun e => hne (List.length_eq_zero.mp e)
  unfold lineStep
  rw [hs]
  by_cases hk : writeResult env Fd.STDOUT_FILENO (s.trace.length + 1) = WriteResult.killed
  · simp [hl, hpos, hf, write_string, sysWrite, PumpState.emit, stopBlock, lit, hk, hasKill,
      Event.isKill]
  · have hik : (Event.write Fd.STDOUT_FILENO (lit "Родитель: Остановка из-за ошибки\n")
        (writeResult env Fd.STDOUT_FILENO (s.trace.length + 1))).isKill = false := by
      cases h : writeResult env Fd.STDOUT_FILENO (s.trace.length + 1) <;>
        simp_all [Event.isKill]
    simp only [lit] at hik
    simp [hl, hpos, hf, write_string, sysWrite, PumpState.emit, stopBlock, lit, hk, hasKill,
      Event.isKill, hik]

theorem lineStep_send (env : Env) (s : PumpState) (seg rest : List Nat)
    (h : s.buffer.drop s.line = seg ++ NL :: rest) (hne : seg ≠ []) (hn : NL ∉ seg)
    (h0 : 0 ∉ seg) (hf : child_failed env s.trace.length = false) :
    lineStep env s = some (
      if hasKill (sendBlock env s.trace.length (s.line_number + 1) seg) then
        Step.killed
          { buffer := s.buffer.set (s.line + seg.length) 0
            line := s.line
            line_number := s.line_number + 1
            trace := s.trace ++ cut (sendBlock env s.trace.length (s.line_number + 1) seg) }
      else
        Step.next
          { buffer := s.buffer.set (s.line + seg.length) 0
            line := s.line + seg.length + 1
            line_number := s.line_number + 1
            trace := s.trace ++ sendBlock env s.trace.length (s.line_number + 1) seg }) := by
  have hs := strchr_found s.buffer s.line seg rest h hn h0
  have hl := strlen_after_set s.buffer s.line seg rest h h0
  have hb := line_bytes_after_set s.buffer s.line seg rest h h0
  rw [hl] at hb
  have hpos : seg.length ≠ 0 := fun e => hne (List.length_eq_zero.mp e)
  unfold lineStep
  rw [hs]
  simp only [hl, hpos, if_false, hf, Bool.false_eq_true]
  rw [sendLine_eq, writeAll_spec, andThen_finish, sendBlock_eq]
  simp only [PumpState.emit, hl, hb, List.length_append, List.length_singleton]
  generalize stampWrites env (s.trace.length + 1)
      [ (Fd.STDOUT_FILENO, lit "Родитель: Отправка команды "),
        (Fd.STDOUT_FILENO, intBytes (s.line_number + 1)),
        (Fd.STDOUT_FILENO, lit ": "),
        (Fd.STDOUT_FILENO, seg),
        (Fd.STDOUT_FILENO, lit "\n"),
        (Fd.pipefd1, seg),
        (Fd.pipefd1, [NL]) ] = W
  have hsl : hasKill [Event.sleep 1] = false := rfl
  have hpo : (Event.poll false).isKill = false := rfl
  by_cases hk : hasKill W = true
  · have hc := cut_append_kill W [Event.sleep 1] hk
    simp only [hk, if_true, hasKill_cons, hasKill_append, Bool.true_or, Bool.or_true, cut,
      hpo, hc, Bool.false_eq_true, if_false, List.append_assoc, List.singleton_append]
  · have hk' := Bool.eq_false_iff.mpr hk
    simp only [hk', Bool.false_eq_true, if_false, hasKill_cons, hasKill_append, hpo, hsl,
      Bool.or_false, Bool.false_or, List.append_assoc, List.singleton_append, List.cons_append,
      List.nil_append]

/-! ## The loops against their functional description -/

theorem child_failed_mono (env : Env) (t t' : Nat) (h : child_failed env t = true)
    (hle : t ≤ t') : child_failed env t' = true := by
  unfold child_failed at *
  cases hr : env.raisedAt with
  | none => simp [hr] at h
  | some r =>
    simp only [hr, decide_eq_true_eq] at h ⊢
    omega

theorem finish_trace (s : PumpState) (ext : List Event) :
    (finish s ext).trace = s.trace ++ cut ext := by
  unfold finish
  by_cases h : hasKill ext = true
  · rw [if_pos h]; rfl
  · rw [if_neg h, cut_of_noKill ext (Bool.eq_false_iff.mpr h)]; rfl

theorem finish_isKilled (s : PumpState) (ext : List Event) :
    (finish s ext).isKilled = hasKill ext := by
  unfold finish
  by_cases h : hasKill ext = true
  · rw [if_pos h, h]; rfl
  · rw [if_neg h, Bool.eq_false_iff.mpr h]; rfl

theorem sendBlock_length (env : Env) (t : Nat) (ln : Int) (r : List Nat) :
    (sendBlock env t ln r).length = 9 := rfl

theorem scanLines_spec (env : Env) : ∀ (fuel : Nat) (s : PumpState) (a tl : List Nat),
    s.buffer.drop s.line = a ++ 0 :: tl → 0 ∉ a → a.length < fuel →
    ∃ r, scanLines env fuel s = some r ∧
      r.trace = s.trace ++ cut (scanTrace env (records a) s.trace.length s.line_number) ∧
      r.isKilled = hasKill (scanTrace env (records a) s.trace.length s.line_number) ∧
      r.state.buffer.length = s.buffer.length ∧
      (r.isKilled = true ∨ child_failed env r.trace.length = true ∨
        r.state.line_number = s.line_number + (records a).length) := by
  intro fuel
  induction fuel with
  | zero => intro s a tl _ _ h; omega
  | succ fuel ih =>
    intro s a tl hdrop h0 hfuel
    by_cases hmem : NL ∈ a
    · obtain ⟨seg, a', rfl, hseg⟩ := List.eq_append_cons_of_mem hmem
      have h0seg : 0 ∉ seg := fun h => h0 (by simp [h])
      have h0a' : 0 ∉ a' := fun h => h0 (by simp [h])
      have hlen : a'.length < fuel := by
        simp only [List.length_append, List.length_cons] at hfuel; omega
      have hdrop' : s.buffer.drop s.line = seg ++ NL :: (a' ++ 0 :: tl) := by
        rw [hdrop]; simp
      rw [records_found seg a' hseg]
      by_cases hne : seg = []
      · subst hne
        have hstep := lineStep_blank env s (a' ++ 0 :: tl) (by simpa using hdrop')
        have hnext := drop_past_set s.buffer s.line [] (a' ++ 0 :: tl) NL 0 (by simpa using hdrop')
        simp only [List.length_nil, Nat.add_zero] at hnext
        obtain ⟨r, hr, htr, hk, hbuf, hln⟩ := ih
          { buffer := s.buffer.set s.line 0
            line := s.line + 1
            line_number := s.line_number + 1
            trace := s.trace } a' tl hnext h0a' hlen
        refine ⟨r, ?_, ?_, ?_, ?_, ?_⟩
        · rw [scanLines, hstep]; exact hr
        · rw [htr]; simp [scanTrace]
        · rw [hk]; simp [scanTrace]
        · rw [hbuf]; simp
        · rcases hln with hln | hln | hln
          · exact Or.inl hln
          · exact Or.inr (Or.inl hln)
          · right; right; rw [hln]; simp only [List.length_cons]; push_cast; ring
      · by_cases hf : child_failed env s.trace.length = true
        · have hstep := lineStep_stop env s seg (a' ++ 0 :: tl) hdrop' hne hseg h0seg hf
          have hsc : scanTrace env (seg :: records a') s.trace.length s.line_number
              = stopBlock env s.trace.length := by simp [scanTrace, hne, hf]
          rw [hsc, cut_stopBlock]
          by_cases hk : hasKill (stopBlock env s.trace.length) = true
          · rw [if_pos hk] at hstep
            refine ⟨Run.killed
              { buffer := s.buffer.set (s.line + seg.length) 0
                line := s.line
                line_number := s.line_number + 1
                trace := s.trace ++ stopBlock env s.trace.length },
              by rw [scanLines, hstep], rfl, by rw [hk]; rfl, by simp [Run.state], Or.inl rfl⟩
          · rw [if_neg hk] at hstep
            refine ⟨Run.alive
              { buffer := s.buffer.set (s.line + seg.length) 0
                line := s.line
                line_number := s.line_number + 1
                trace := s.trace ++ stopBlock env s.trace.length },
              by rw [scanLines, hstep], rfl,
              by rw [Bool.eq_false_iff.mpr hk]; rfl, by simp [Run.state], Or.inr (Or.inl ?_)⟩
            exact child_failed_mono env _ _ hf (by simp [Run.trace, Run.state])
        · have hf' : child_failed env s.trace.length = false := by
            cases h : child_failed env s.trace.length
            · rfl
            · exact absurd h hf
          have hstep := lineStep_send env s seg (a' ++ 0 :: tl) hdrop' hne hseg h0seg hf'
          have hsc : scanTrace env (seg :: records a') s.trace.length s.line_number
              = sendBlock env s.trace.length (s.line_number + 1) seg ++
                scanTrace env (records a') (s.trace.length + 9) (s.line_number + 1) := by
            simp [scanTrace, hne, hf']
          rw [hsc]
          by_cases hk : hasKill (sendBlock env s.trace.length (s.line_number + 1) seg) = true
          · rw [if_pos hk] at hstep
            refine ⟨Run.killed
              { buffer := s.buffer.set (s.line + seg.length) 0
                line := s.line
                line_number := s.line_number + 1
                trace := s.trace ++ cut (sendBlock env s.trace.length (s.line_number + 1) seg) },
              by rw [scanLines, hstep], ?_, ?_, by simp [Run.state], Or.inl rfl⟩
            · rw [cut_append_kill _ _ hk]; rfl
            · rw [hasKill_append, hk]; rfl
          · rw [if_neg hk] at hstep
            have hk' := Bool.eq_false_iff.mpr hk
            have hnext := drop_past_set s.buffer s.line seg (a' ++ 0 :: tl) NL 0 hdrop'
            obtain ⟨r, hr, htr, hkr, hbuf, hln⟩ := ih
              { buffer := s.buffer.set (s.line + seg.length) 0
                line := s.line + seg.length + 1
                line_number := s.line_number + 1
                trace := s.trace ++ sendBlock env s.trace.length (s.line_number + 1) seg }
              a' tl hnext h0a' hlen
            simp only [List.length_append, sendBlock_length] at htr hkr
            refine ⟨r, ?_, ?_, ?_, ?_, ?_⟩
            · rw [scanLines, hstep]; exact hr
            · rw [htr, cut_append_noKill _ _ hk', List.append_assoc]
            · rw [hkr, hasKill_append, hk', Bool.false_or]
            · rw [hbuf]; simp
            · rcases hln with hln | hln | hln
              · exact Or.inl hln
              · exact Or.inr (Or.inl hln)
              · right; right; rw [hln]; simp only [List.length_cons]; push_cast; ring
    · have hstep := lineStep_done env s a tl hdrop h0 hmem
      refine ⟨Run.alive s, ?_, ?_, ?_, rfl, ?_⟩
      · rw [scanLines, hstep]
      · simp [records_none a hmem, scanTrace, cut, Run.trace, Run.state]
      · simp [records_none a hmem, scanTrace, hasKill, Run.isKilled]
      · right; right; simp [records_none a hmem, Run.state]

theorem pumpLoop_spec (env : Env) : ∀ (chunks : List (List Nat)) (s : PumpState),
    s.buffer.length = BUFFER_SIZE →
    ∃ r, pumpLoop env chunks s = some r ∧
      r.trace = s.trace ++ cut (pumpTrace env chunks s.trace.length s.line_number) ∧
      r.isKilled = hasKill (pumpTrace env chunks s.trace.length s.line_number) := by
  intro chunks
  induction chunks with
  | nil =>
    intro s _
    exact ⟨_, rfl, by simp [PumpState.emit, pumpTrace, cut, Event.isKill, Run.trace, Run.state],
      by simp [pumpTrace, hasKill, Event.isKill, Run.isKilled]⟩
  | cons chunk rest ih =>
    intro s hbuf
    by_cases hgot : chunk.take (BUFFER_SIZE - 1) = []
    · refine ⟨Run.alive (s.emit (Event.read Fd.file_fd (BUFFER_SIZE - 1) [])), ?_, ?_, ?_⟩
      · simp [pumpLoop, hgot]
      · simp [PumpState.emit, pumpTrace, hgot, cut, Event.isKill, Run.trace, Run.state]
      · simp [pumpTrace, hgot, hasKill, Event.isKill, Run.isKilled]
    · have hpos : (chunk.take (BUFFER_SIZE - 1)).length > 0 :=
        List.length_pos.mpr hgot
      have hle : (chunk.take (BUFFER_SIZE - 1)).length ≤ BUFFER_SIZE - 1 :=
        List.length_take_le _ _
      generalize hg : chunk.take (BUFFER_SIZE - 1) = got at hgot hpos hle
      have hlt : got.length < s.buffer.length := by rw [hbuf]; simp [BUFFER_SIZE] at hle ⊢; omega
      obtain ⟨x, hx⟩ : ∃ x, s.buffer.drop got.length = x :: s.buffer.drop (got.length + 1) :=
        ⟨s.buffer[got.length], by simp⟩
      have hbuf1 : (got ++ s.buffer.drop got.length).set got.length 0
          = got ++ 0 :: s.buffer.drop (got.length + 1) := by
        rw [hx, set_at_length]
      obtain ⟨tl', htl'⟩ := untilNul_split got (s.buffer.drop (got.length + 1))
      have hfuel : (untilNul got).length < BUFFER_SIZE := by
        have := untilNul_length_le got
        simp only [BUFFER_SIZE] at hle ⊢; omega
      obtain ⟨r2, hr2, htr2, hk2, hbuf2, hln2⟩ := scanLines_spec env BUFFER_SIZE
        { buffer := (got ++ s.buffer.drop got.length).set got.length 0
          line := 0
          line_number := s.line_number
          trace := s.trace ++ [Event.read Fd.file_fd (BUFFER_SIZE - 1) got] }
        (untilNul got) tl'
        (by simp only [List.drop_zero]; rw [hbuf1, htl'])
        (zero_not_mem_untilNul got) hfuel
      simp only [List.length_append, List.length_singleton] at htr2 hk2
      have hrd : (Event.read Fd.file_fd (BUFFER_SIZE - 1) got).isKill = false := rfl
      have hpt : pumpTrace env (chunk :: rest) s.trace.length s.line_number
          = Event.read Fd.file_fd (BUFFER_SIZE - 1) got ::
              (scanTrace env (records (untilNul got)) (s.trace.length + 1) s.line_number ++
                Event.poll (child_failed env (s.trace.length + 1 +
                    (scanTrace env (records (untilNul got)) (s.trace.length + 1)
                      s.line_number).length)) ::
                  (if child_failed env (s.trace.length + 1 +
                    (scanTrace env (records (untilNul got)) (s.trace.length + 1)
                      s.line_number).length) = true then []
                   else pumpTrace env rest (s.trace.length + 1 +
                    (scanTrace env (records (untilNul got)) (s.trace.length + 1)
                      s.line_number).length + 1)
                    (s.line_number + (records (untilNul got)).length))) := by
        rw [pumpTrace]
        simp only [hg, hgot, if_false, List.cons_append]
      rw [hpt]
      generalize hS : scanTrace env (records (untilNul got)) (s.trace.length + 1) s.line_number
        = S at htr2 hk2
      cases r2 with
      | killed s2 =>
        have hkS : hasKill S = true := by rw [← hk2]; rfl
        refine ⟨Run.killed s2, ?_, ?_, ?_⟩
        · rw [pumpLoop]
          simp only [hg, hpos, if_true, PumpState.emit, hr2]
        · show s2.trace = _
          have : s2.trace = (s.trace ++ [Event.read Fd.file_fd (BUFFER_SIZE - 1) got]) ++ cut S :=
            htr2
          rw [this]
          simp only [cut, hrd, Bool.false_eq_true, if_false, cut_append_kill _ _ hkS,
            List.append_assoc, List.singleton_append]
        · simp only [hasKill_cons, hasKill_append, hkS, hrd, Bool.true_or, Bool.or_true,
            Bool.false_or]
          rfl
      | alive s2 =>
        have hkS : hasKill S = false := by rw [← hk2]; rfl
        have htr2' : s2.trace = s.trace ++ [Event.read Fd.file_fd (BUFFER_SIZE - 1) got] ++ S := by
          have : s2.trace = (s.trace ++ [Event.read Fd.file_fd (BUFFER_SIZE - 1) got]) ++ cut S :=
            htr2
          rw [this, cut_of_noKill S hkS]
        have hlen2 : s2.buffer.length = BUFFER_SIZE := by
          have : s2.buffer.length = ((got ++ s.buffer.drop got.length).set got.length 0).length :=
            hbuf2
          rw [this, hbuf1]
          simp only [List.length_append, List.length_cons, List.length_drop]
          omega
        have hT : s2.trace.length = s.trace.length + 1 + S.length := by
          rw [htr2']; simp only [List.length_append, List.length_singleton]
        have hunf : pumpLoop env (chunk :: rest) s =
            (if child_failed env s2.trace.length = true
              then some (Run.alive (s2.emit (Event.poll (child_failed env s2.trace.length))))
              else pumpLoop env rest
                (s2.emit (Event.poll (child_failed env s2.trace.length)))) := by
          rw [pumpLoop]
          simp only [hg, hpos, if_true, PumpState.emit, hr2]
        rw [← hT]
        have hcut : ∀ (b : Bool) (tail : List Event),
            cut (Event.read Fd.file_fd (BUFFER_SIZE - 1) got :: (S ++ Event.poll b :: tail))
              = Event.read Fd.file_fd (BUFFER_SIZE - 1) got :: (S ++ Event.poll b :: cut tail) := by
          intro b tail
          have hpo : (Event.poll b).isKill = false := rfl
          simp only [cut, hrd, Bool.false_eq_true, if_false, cut_append_noKill _ _ hkS, hpo]
        have hhk : ∀ (b : Bool) (tail : List Event),
            hasKill (Event.read Fd.file_fd (BUFFER_SIZE - 1) got :: (S ++ Event.poll b :: tail))
              = hasKill tail := by
          intro b tail
          have hpo : (Event.poll b).isKill = false := rfl
          simp only [hasKill_cons, hasKill_append, hkS, hrd, hpo, Bool.false_or]
        rw [hcut, hhk]
        by_cases hf : child_failed env s2.trace.length = true
        · refine ⟨_, by rw [hunf, if_pos hf], ?_, ?_⟩
          · show s2.trace ++ [Event.poll _] = _
            rw [if_pos hf, htr2']
            simp [cut]
          · rw [if_pos hf]; rfl
        · have hf' : child_failed env s2.trace.length = false := by
            cases h : child_failed env s2.trace.length
            · rfl
            · exact absurd h hf
          have hln : s2.line_number = s.line_number +
              (records (untilNul got)).length := by
            rcases hln2 with h | h | h
            · exact absurd h (by simp [Run.isKilled])
            · exact absurd h hf
            · exact h
          obtain ⟨r', hr', htr', hk'⟩ := ih
            (s2.emit (Event.poll (child_failed env s2.trace.length)))
            (by simpa [PumpState.emit] using hlen2)
          refine ⟨r', by rw [hunf, if_neg hf]; exact hr', ?_, ?_⟩
          · rw [htr', if_neg hf]
            show (s2.trace ++ [Event.poll _]) ++
              cut (pumpTrace env rest (s2.trace ++ [Event.poll _]).length s2.line_number) = _
            rw [hln, htr2']
            simp only [List.append_assoc, List.cons_append, List.nil_append,
              List.singleton_append, List.length_append, List.length_cons, List.length_nil,
              Nat.zero_add, Nat.add_assoc]
          · rw [hk', if_neg hf]
            show hasKill (pumpTrace env rest (s2.trace ++ [Event.poll _]).length s2.line_number)
              = _
            rw [hln]
            simp only [List.length_append, List.length_singleton]

theorem banner_eq (env : Env) (s : PumpState) :
    banner env s = writeAll env
      [ (Fd.STDOUT_FILENO, lit "Родительский процесс PID: "),
        (Fd.STDOUT_FILENO, intBytes env.self_pid),
        (Fd.STDOUT_FILENO, lit "\nДочерний процесс PID: "),
        (Fd.STDOUT_FILENO, intBytes env.pid),
        (Fd.STDOUT_FILENO, lit "\nФайл: "),
        (Fd.STDOUT_FILENO, env.argv1.take (strlenFrom env.argv1)),
        (Fd.STDOUT_FILENO, lit "\n\n") ] (s.emit (Event.close Fd.pipefd0)) := by
  rw [← andThen_some_alive (writeAll env _ _)]
  simp only [andThen_writeAll_cons, andThen_writeAll_nil, banner, write_int_eq]
  simp only [andThen_some_alive]
  rfl

theorem banner_spec (env : Env) :
    ∃ r, banner env (initState env) = some r ∧ r.trace = cut (bannerTrace env) ∧
      r.isKilled = hasKill (bannerTrace env) ∧
      (r.isKilled = false → r = Run.alive
        { buffer := (List.range BUFFER_SIZE).map env.garbage
          line := 0
          line_number := 0
          trace := bannerTrace env }) := by
  have hb : bannerTrace env = Event.close Fd.pipefd0 :: stampWrites env 1
      [ (Fd.STDOUT_FILENO, lit "Родительский процесс PID: "),
        (Fd.STDOUT_FILENO, intBytes env.self_pid),
        (Fd.STDOUT_FILENO, lit "\nДочерний процесс PID: "),
        (Fd.STDOUT_FILENO, intBytes env.pid),
        (Fd.STDOUT_FILENO, lit "\nФайл: "),
        (Fd.STDOUT_FILENO, env.argv1.take (strlenFrom env.argv1)),
        (Fd.STDOUT_FILENO, lit "\n\n") ] := by
    simp [bannerTrace, stampWrites]
  have hcl : (Event.close Fd.pipefd0).isKill = false := rfl
  have hW : ((initState env).emit (Event.close Fd.pipefd0)).trace.length = 1 := rfl
  rw [banner_eq, writeAll_spec, hW, hb]
  generalize stampWrites env _ _ = W
  refine ⟨_, rfl, ?_, ?_, ?_⟩
  · rw [finish_trace]
    simp [cut, hcl, initState, PumpState.emit]
  · rw [finish_isKilled, hasKill_cons, hcl, Bool.false_or]
  · intro hk
    rw [finish_isKilled] at hk
    simp [finish, hk, initState, PumpState.emit]

theorem reportTrace_eq (env : Env) (t status : Nat) :
    reportTrace env t status = stampWrites env t
      (if WIFEXITED status then
        [ (Fd.STDOUT_FILENO, lit "Родитель: Дочерний процесс завершен с кодом: "),
          (Fd.STDOUT_FILENO, intBytes (WEXITSTATUS status)),
          (Fd.STDOUT_FILENO, lit "\n"),
          (Fd.STDOUT_FILENO, lit "Родитель: Завершение работы\n") ]
      else [ (Fd.STDOUT_FILENO, lit "Родитель: Завершение работы\n") ]) := by
  unfold reportTrace
  split <;> simp [stampWrites, Nat.add_assoc]

theorem reportStatus_spec (env : Env) (s : PumpState) (status : Nat) :
    reportStatus env s status = some (finish s (reportTrace env s.trace.length status)) := by
  rw [reportTrace_eq, ← writeAll_spec, ← andThen_some_alive (writeAll env _ _)]
  unfold reportStatus
  by_cases h : WIFEXITED status = true
  · rw [if_pos h, if_pos h]
    simp only [andThen_writeAll_cons, andThen_writeAll_nil, write_int_eq]
    simp only [andThen_some_alive]
    rfl
  · rw [if_neg h, if_neg h]
    simp only [andThen_writeAll_cons, andThen_writeAll_nil]
    simp only [andThen_some_alive]
    rfl

theorem drain_spec (env : Env) (s : PumpState) :
    ∃ r, drain env s = some r ∧ r.trace = s.trace ++ cut (drainTrace env s.trace.length) ∧
      r.isKilled = hasKill (drainTrace env s.trace.length) := by
  unfold drain
  rw [reportStatus_spec]
  refine ⟨_, rfl, ?_, ?_⟩
  · rw [finish_trace]
    simp [PumpState.emit, drainTrace, cut, Event.isKill, Nat.add_assoc]
  · rw [finish_isKilled]
    simp [PumpState.emit, drainTrace, hasKill_cons, Event.isKill, Nat.add_assoc]

/-- The parent branch always comes to an end: it runs through the calls of `parentTrace` up
to the first `write` that `SIGPIPE` ends, or through all of them. -/
theorem runParent_spec (env : Env) :
    ∃ r, runParent env = some r ∧ r.trace = cut (parentTrace env) ∧
      r.isKilled = hasKill (parentTrace env) := by
  obtain ⟨rb, hrb, htb, hkb, hab⟩ := banner_spec env
  have hb : (bannerTrace env).length = 8 := rfl
  have hpar : parentTrace env = bannerTrace env ++ (pumpTrace env env.reads 8 0 ++
      drainTrace env (8 + (pumpTrace env env.reads 8 0).length)) := by
    simp [parentTrace, pumpEvents]
  rw [hpar]
  unfold runParent
  rw [hrb]
  by_cases hB : hasKill (bannerTrace env) = true
  · cases rb with
    | alive s => rw [hB] at hkb; simp [Run.isKilled] at hkb
    | killed s =>
      refine ⟨Run.killed s, rfl, ?_, ?_⟩
      · rw [htb, cut_append_kill _ _ hB]
      · rw [hasKill_append, hB]; rfl
  · have hB' := Bool.eq_false_iff.mpr hB
    rw [hab (by rw [hkb, hB'])]
    obtain ⟨r1, hr1, htr1, hk1⟩ := pumpLoop_spec env env.reads
      { buffer := (List.range BUFFER_SIZE).map env.garbage
        line := 0
        line_number := 0
        trace := bannerTrace env } (by simp)
    simp only [hb] at htr1 hk1
    simp only [andThen_alive, hr1]
    by_cases hP : hasKill (pumpTrace env env.reads 8 0) = true
    · cases r1 with
      | alive s => rw [hP] at hk1; simp [Run.isKilled] at hk1
      | killed s =>
        refine ⟨Run.killed s, rfl, ?_, ?_⟩
        · rw [htr1, cut_append_noKill _ _ hB', cut_append_kill _ _ hP]
        · rw [hasKill_append, hasKill_append, hP]; simp [Run.isKilled]
    · have hP' := Bool.eq_false_iff.mpr hP
      cases r1 with
      | killed s => rw [hP'] at hk1; simp [Run.isKilled] at hk1
      | alive s =>
        have hts : s.trace = bannerTrace env ++ pumpTrace env env.reads 8 0 := by
          have : s.trace = bannerTrace env ++ cut (pumpTrace env env.reads 8 0) := htr1
          rw [this, cut_of_noKill _ hP']
        obtain ⟨r2, hr2, htr2, hk2⟩ := drain_spec env s
        refine ⟨r2, hr2, ?_, ?_⟩
        · rw [htr2, hts, cut_append_noKill _ _ hB', cut_append_noKill _ _ hP',
            List.length_append, hb, List.append_assoc]
        · rw [hk2, hts, hasKill_append, hasKill_append, hB', hP', List.length_append, hb]
          rfl

/-! ## What reaches the pipe when nothing interrupts the pump -/

theorem pipeBytes_append (a b : List Event) : pipeBytes (a ++ b) = pipeBytes a ++ pipeBytes b := by
  simp [pipeBytes]

theorem pipeBytes_cons (e : Event) (b : List Event) :
    pipeBytes (e :: b) = e.delivered ++ pipeBytes b := by
  simp [pipeBytes]

theorem child_failed_never (env : Env) (h : env.raisedAt = none) (t : Nat) :
    child_failed env t = false := by
  simp [child_failed, h]

theorem pipeBytes_scanTrace (env : Env) (hr : env.raisedAt = none)
    (hw :
    ∀ fd t, writeResult env fd t = WriteResult.done) : ∀ (recs : List (List Nat)) (t : Nat) (ln : Int),
    pipeBytes (scanTrace env recs t ln)
      = (recs.filter (fun r => r ≠ [])).flatMap (fun r => r ++ [NL])
  | [], _, _ => by simp [scanTrace, pipeBytes]
  | r :: rs, t, ln => by
    by_cases hne : r = []
    · simp [scanTrace, hne, pipeBytes_scanTrace env hr hw rs]
    · simp [scanTrace, hne, child_failed_never env hr, pipeBytes_append, sendBlock,
        pipeBytes_cons, Event.delivered, hw, pipeBytes_scanTrace env hr hw rs]

theorem pipeBytes_pumpTrace (env : Env) (hr : env.raisedAt = none)
    (hw :
    ∀ fd t, writeResult env fd t = WriteResult.done) : ∀ (chunks : List (List Nat)) (t : Nat) (ln : Int),
    (∀ c ∈ chunks, 1 ≤ c.length ∧ c.length ≤ BUFFER_SIZE - 1) →
    pipeBytes (pumpTrace env chunks t ln) = chunks.flatMap chunkOutput
  | [], _, _, _ => by simp [pumpTrace, pipeBytes, Event.delivered]
  | c :: rest, t, ln, h => by
    have hc := h c (List.mem_cons_self _ _)
    have htake : c.take (BUFFER_SIZE - 1) = c := List.take_of_length_le hc.2
    have hne : c ≠ [] := by
      intro e; rw [e] at hc; simp at hc
    have ih := pipeBytes_pumpTrace env hr hw rest
    rw [pumpTrace]
    simp only [htake, hne, if_false, child_failed_never env hr, Bool.false_eq_true]
    rw [pipeBytes_append, pipeBytes_cons, pipeBytes_cons,
      pipeBytes_scanTrace env hr hw, ih _ _ (fun c' hc' => h c' (List.mem_cons_of_mem _ hc'))]
    simp [Event.delivered, chunkOutput]

theorem pipeBytes_bannerTrace (env : Env) : pipeBytes (bannerTrace env) = [] := by
  simp [bannerTrace, pipeBytes, Event.delivered]

theorem pipeBytes_drainTrace (env : Env) (t : Nat) : pipeBytes (drainTrace env t) = [] := by
  unfold drainTrace reportTrace
  split <;> simp [pipeBytes, Event.delivered]

theorem recordsFrom_append_tail : ∀ (x cur tail : List Nat), NL ∉ tail →
    recordsFrom cur (x ++ tail) = recordsFrom cur x
  | [], cur, tail, h => by
    simp [recordsFrom_none tail cur h, recordsFrom]
  | b :: x, cur, tail, h => by
    by_cases hb : b = NL
    · simp [recordsFrom, hb, recordsFrom_append_tail x [] tail h]
    · simp [recordsFrom, hb, recordsFrom_append_tail x (cur ++ [b]) tail h]

theorem untilNul_append_nul : ∀ (pre post : List Nat), untilNul (pre ++ 0 :: post) = untilNul pre
  | [], post => by simp [untilNul]
  | b :: pre, post => by
    by_cases hb : b = 0
    · simp [untilNul, hb]
    · simp [untilNul, hb, untilNul_append_nul pre post]

theorem untilNul_append : ∀ (x y : List Nat),
    untilNul (x ++ y) = untilNul x ∨ untilNul (x ++ y) = x ++ untilNul y
  | [], y => by simp [untilNul]
  | b :: x, y => by
    by_cases hb : b = 0
    · simp [untilNul, hb]
    · rcases untilNul_append x y with h | h
      · left; simp [untilNul, hb, h]
      · right; simp [untilNul, hb, h]

theorem not_mem_untilNul : ∀ (c : Nat) (y : List Nat), c ∉ y → c ∉ untilNul y
  | _, [], _ => by simp [untilNul]
  | c, b :: y, h => by
    by_cases hb : b = 0
    · simp [untilNul, hb]
    · have hcb : c ≠ b := fun e => h (by simp [e])
      have := not_mem_untilNul c y (fun h' => h (List.mem_cons_of_mem _ h'))
      simp [untilNul, hb, hcb, this]

/-- Bytes that follow a NUL in a chunk contribute nothing. -/
theorem chunkOutput_append_nul (pre post : List Nat) :
    chunkOutput (pre ++ 0 :: post) = chunkOutput pre := by
  simp [chunkOutput, untilNul_append_nul]

/-- Bytes that follow the last newline of a chunk contribute nothing. -/
theorem chunkOutput_append_tail (body tail : List Nat) (h : NL ∉ tail) :
    chunkOutput (body ++ tail) = chunkOutput body := by
  unfold chunkOutput
  rcases untilNul_append body tail with e | e
  · rw [e]
  · have hb : untilNul body = body := by
      have h0 := zero_not_mem_untilNul (body ++ tail)
      rw [e] at h0
      exact untilNul_of_not_mem _ (fun hm => h0 (List.mem_append_left _ hm))
    rw [e, hb]
    unfold records
    rw [recordsFrom_append_tail body [] (untilNul tail) (not_mem_untilNul NL tail h)]

/-! ### The events of the pump -/

theorem scanTrace_events (env : Env) (P : Event → Prop)
    (hw : ∀ fd d ok, P (Event.write fd d ok)) (hp : ∀ b, P (Event.poll b))
    (hs : ∀ n, P (Event.sleep n)) : ∀ (recs : List (List Nat)) (t : Nat) (ln : Int),
    ∀ e ∈ scanTrace env recs t ln, P e
  | [], _, _ => by simp [scanTrace]
  | r :: rs, t, ln => by
    intro e he
    have ih := scanTrace_events env P hw hp hs rs
    rw [scanTrace] at he
    split at he
    · exact ih _ _ e he
    · split at he
      · simp only [stopBlock, List.mem_cons, List.mem_singleton, List.mem_nil_iff, or_false] at he
        rcases he with rfl | rfl
        · exact hp _
        · exact hw _ _ _
      · rcases List.mem_append.mp he with h | h
        · simp only [sendBlock, List.mem_cons, List.mem_singleton, List.mem_nil_iff,
            or_false] at h
          rcases h with rfl | rfl | rfl | rfl | rfl | rfl | rfl | rfl | rfl
          · exact hp _
          all_goals first | exact hw _ _ _ | exact hs _
        · exact ih _ _ e h

theorem pumpTrace_events (env : Env) (P : Event → Prop)
    (hr : ∀ fd c g, P (Event.read fd c g))
    (hw : ∀ fd d ok, P (Event.write fd d ok)) (hp : ∀ b, P (Event.poll b))
    (hs : ∀ n, P (Event.sleep n)) : ∀ (chunks : List (List Nat)) (t : Nat) (ln : Int),
    ∀ e ∈ pumpTrace env chunks t ln, P e
  | [], _, _ => by
    intro e he
    simp only [pumpTrace, List.mem_singleton] at he
    rw [he]; exact hr _ _ _
  | c :: rest, t, ln => by
    intro e he
    have ih := pumpTrace_events env P hr hw hp hs rest
    rw [pumpTrace] at he
    simp only at he
    split at he
    · simp only [List.mem_singleton] at he
      rw [he]; exact hr _ _ _
    · rcases List.mem_append.mp he with h | h
      · rcases List.mem_cons.mp h with rfl | h
        · exact hr _ _ _
        · exact scanTrace_events env P hw hp hs _ _ _ e h
      · rcases List.mem_cons.mp h with rfl | h
        · exact hp _
        · split at h
          · simp at h
          · exact ih _ _ e h

theorem pipeWrites_append (a b : List Event) :
    pipeWrites (a ++ b) = pipeWrites a ++ pipeWrites b := by
  simp [pipeWrites]

theorem pipeWrites_reportTrace (env : Env) (t : Nat) (status : Nat) :
    pipeWrites (reportTrace env t status) = [] := by
  unfold reportTrace
  split <;> simp [pipeWrites, Event.pipeData]

theorem reportTrace_no_close (env : Env) (t : Nat) (status : Nat) (fd : Fd) :
    Event.close fd ∉ reportTrace env t status := by
  unfold reportTrace
  split <;> simp

theorem reportTrace_no_wait (env : Env) (t : Nat) (status : Nat) :
    (reportTrace env t status).countP Event.isWait = 0 := by
  unfold reportTrace
  split <;> simp [Event.isWait]

/-! ### The report of the wait status -/

theorem intBytes_small (n : Nat) (h : n < 2147483648) : intBytes (n : Int) = decimalDigits n := by
  have h1 := write_int_bytes_canonical (n : Int) (by omega) (by omega)
  have h2 : ¬ ((n : Int) < 0) := by omega
  simp [intBytes, h1, canonicalDecimal, h2]

/-! ### The results of `write` -/

theorem child_failed_congr (env env2 : Env) (h : env2.raisedAt = env.raisedAt) (t : Nat) :
    child_failed env2 t = child_failed env t := by
  simp [child_failed, h]

theorem forgetFailure_congr (fd : Fd) (d : List Nat) (r1 r2 : WriteResult)
    (h : r2 = WriteResult.killed ↔ r1 = WriteResult.killed) :
    (Event.write fd d r2).forgetFailure = (Event.write fd d r1).forgetFailure := by
  cases r1 <;> cases r2 <;> simp_all [Event.forgetFailure]

theorem scanTrace_forget (env env2 : Env) (h : env2.raisedAt = env.raisedAt)
    (hk : ∀ fd t, writeResult env2 fd t = WriteResult.killed ↔
      writeResult env fd t = WriteResult.killed) :
    ∀ (recs : List (List Nat)) (t : Nat) (ln : Int),
    (scanTrace env2 recs t ln).map Event.forgetFailure
      = (scanTrace env recs t ln).map Event.forgetFailure
  | [], _, _ => rfl
  | r :: rs, t, ln => by
    have ih := scanTrace_forget env env2 h hk rs
    rw [scanTrace, scanTrace, child_failed_congr env env2 h]
    split
    · exact ih _ _
    · split
      · simp only [stopBlock, List.map_cons, List.map_nil,
          forgetFailure_congr _ _ _ _ (hk _ _)]
      · simp only [sendBlock, List.map_append, List.map_cons, List.map_nil,
          forgetFailure_congr _ _ _ _ (hk _ _), ih]

theorem pumpTrace_forget (env env2 : Env) (h : env2.raisedAt = env.raisedAt)
    (hk : ∀ fd t, writeResult env2 fd t = WriteResult.killed ↔
      writeResult env fd t = WriteResult.killed) :
    ∀ (chunks : List (List Nat)) (t : Nat) (ln : Int),
    (pumpTrace env2 chunks t ln).map Event.forgetFailure
      = (pumpTrace env chunks t ln).map Event.forgetFailure
  | [], _, _ => rfl
  | c :: rest, t, ln => by
    have ih := pumpTrace_forget env env2 h hk rest
    have hs := scanTrace_forget env env2 h hk (records (untilNul (c.take (BUFFER_SIZE - 1))))
      (t + 1) ln
    have hl : (scanTrace env2 (records (untilNul (c.take (BUFFER_SIZE - 1)))) (t + 1) ln).length
        = (scanTrace env (records (untilNul (c.take (BUFFER_SIZE - 1)))) (t + 1) ln).length := by
      have := congrArg List.length hs
      simpa using this
    rw [pumpTrace, pumpTrace]
    simp only [child_failed_congr env env2 h, hl]
    split
    · rfl
    · simp only [List.map_append, List.map_cons, hs]
      split
      · rfl
      · rw [ih]

/-! ### After the signal -/

theorem quiet_pipeWrites (b : List Event) (h : ∀ e ∈ b, e.isQuiet = true) :
    pipeWrites b = [] ∧ readCount b = 0 ∧ sleepCount b = 0 := by
  refine ⟨?_, ?_, ?_⟩
  · unfold pipeWrites
    rw [List.filterMap_eq_nil_iff]
    intro e he
    have := h e he
    simp only [Event.isQuiet, Bool.and_eq_true, Option.isNone_iff_eq_none] at this
    exact this.1.1
  · unfold readCount
    rw [List.countP_eq_zero]
    intro e he
    have := h e he
    simp only [Event.isQuiet, Bool.and_eq_true, Bool.not_eq_true'] at this
    simp [this.1.2]
  · unfold sleepCount
    rw [List.countP_eq_zero]
    intro e he
    have := h e he
    simp only [Event.isQuiet, Bool.and_eq_true, Bool.not_eq_true'] at this
    simp [this.2]

theorem drainTrace_quiet (env : Env) (t : Nat) : ∀ e ∈ drainTrace env t, e.isQuiet = true := by
  intro e he
  unfold drainTrace reportTrace at he
  split at he
  · simp only [List.cons_append, List.nil_append, List.mem_cons, List.mem_singleton,
      List.mem_nil_iff, or_false] at he
    rcases he with rfl | rfl | rfl | rfl | rfl | rfl | rfl <;> rfl
  · simp only [List.cons_append, List.nil_append, List.mem_cons, List.mem_singleton,
      List.mem_nil_iff, or_false] at he
    rcases he with rfl | rfl | rfl | rfl <;> rfl

theorem stamped_append (env : Env) : ∀ (a b : List Event) (t : Nat),
    stamped env t a → stamped env (t + a.length) b → stamped env t (a ++ b)
  | [], b, t, _, hb => by simpa using hb
  | e :: a, b, t, ha, hb => by
    refine ⟨ha.1, ?_⟩
    apply stamped_append env a b (t + 1) ha.2
    have : t + 1 + a.length = t + (e :: a).length := by
      simp only [List.length_cons]; omega
    rw [this]; exact hb

theorem stamped_stampWrites (env : Env) : ∀ (ws : List (Fd × List Nat)) (t : Nat),
    stamped env t (stampWrites env t ws)
  | [], _ => trivial
  | w :: ws, t => by
    refine ⟨?_, stamped_stampWrites env ws (t + 1)⟩
    intro fd d res h
    cases h
    rfl

theorem stamped_sendBlock (env : Env) (t : Nat) (ln : Int) (r : List Nat) :
    stamped env t (sendBlock env t ln r) := by
  rw [sendBlock_eq]
  refine ⟨(fun fd d res h => nomatch h), ?_⟩
  exact stamped_append env _ _ _ (stamped_stampWrites env _ _)
    ⟨(fun fd d res h => nomatch h), trivial⟩

theorem stamped_stopBlock (env : Env) (t : Nat) : stamped env t (stopBlock env t) := by
  refine ⟨(fun fd d res h => nomatch h), ?_, trivial⟩
  intro fd d res h
  cases h
  rfl

theorem stamped_scanTrace (env : Env) : ∀ (recs : List (List Nat)) (t : Nat) (ln : Int),
    stamped env t (scanTrace env recs t ln)
  | [], _, _ => trivial
  | r :: rs, t, ln => by
    rw [scanTrace]
    split
    · exact stamped_scanTrace env rs t (ln + 1)
    · split
      · exact stamped_stopBlock env t
      · exact stamped_append env _ _ _ (stamped_sendBlock env t (ln + 1) r)
          (stamped_scanTrace env rs (t + 9) (ln + 1))

theorem stamped_pumpTrace (env : Env) : ∀ (chunks : List (List Nat)) (t : Nat) (ln : Int),
    stamped env t (pumpTrace env chunks t ln)
  | [], _, _ => ⟨(fun fd d res h => nomatch h), trivial⟩
  | c :: rest, t, ln => by
    rw [pumpTrace]
    simp only
    split
    · exact ⟨(fun fd d res h => nomatch h), trivial⟩
    · rw [List.cons_append]
      refine ⟨(fun fd d res h => nomatch h), ?_⟩
      refine stamped_append env _ _ _ (stamped_scanTrace env _ _ _)
        ⟨(fun fd d res h => nomatch h), ?_⟩
      split
      · trivial
      · exact stamped_pumpTrace env rest _ _

theorem bannerTrace_eq (env : Env) :
    bannerTrace env = Event.close Fd.pipefd0 :: stampWrites env 1
      [ (Fd.STDOUT_FILENO, lit "Родительский процесс PID: "),
        (Fd.STDOUT_FILENO, intBytes env.self_pid),
        (Fd.STDOUT_FILENO, lit "\nДочерний процесс PID: "),
        (Fd.STDOUT_FILENO, intBytes env.pid),
        (Fd.STDOUT_FILENO, lit "\nФайл: "),
        (Fd.STDOUT_FILENO, env.argv1.take (strlenFrom env.argv1)),
        (Fd.STDOUT_FILENO, lit "\n\n") ] := by
  simp [bannerTrace, stampWrites]

theorem stamped_parentTrace (env : Env) : stamped env 0 (parentTrace env) := by
  have hb : stamped env 0 (bannerTrace env) := by
    rw [bannerTrace_eq]
    exact ⟨(fun fd d res h => nomatch h), stamped_stampWrites env _ 1⟩
  have hlen : (bannerTrace env).length = 8 := rfl
  have hd : ∀ t, stamped env t (drainTrace env t) := by
    intro t
    unfold drainTrace
    rw [reportTrace_eq]
    exact ⟨(fun fd d res h => nomatch h), (fun fd d res h => nomatch h),
      (fun fd d res h => nomatch h), stamped_stampWrites env _ _⟩
  unfold parentTrace
  refine stamped_append env _ _ _ (stamped_append env _ _ _ hb ?_) ?_
  · rw [hlen, Nat.zero_add]; exact stamped_pumpTrace env env.reads 8 0
  · rw [List.length_append, hlen, Nat.zero_add]; exact hd _

theorem stamped_split (env : Env) : ∀ (pre : List Event) (l : List Event) (t : Nat)
    (fd : Fd) (d : List Nat) (res : WriteResult) (post : List Event),
    stamped env t l → l = pre ++ Event.write fd d res :: post →
    res = writeResult env fd (t + pre.length)
  | [], l, t, fd, d, res, post, hs, hl => by
    rw [hl] at hs
    exact hs.1 fd d res rfl
  | p :: pre, l, t, fd, d, res, post, hs, hl => by
    rw [hl] at hs
    have := stamped_split env pre _ (t + 1) fd d res post hs.2 rfl
    rw [this, List.length_cons]
    congr 1
    omega

theorem stamped_noKill (env : Env)
    (hk : ∀ fd t, writeResult env fd t ≠ WriteResult.killed) :
    ∀ (l : List Event) (t : Nat), stamped env t l → hasKill l = false
  | [], _, _ => rfl
  | e :: es, t, hs => by
    rw [hasKill_cons, stamped_noKill env hk es (t + 1) hs.2, Bool.or_false]
    cases e with
    | write fd d res =>
      have := hs.1 fd d res rfl
      cases res with
      | killed => exact absurd this.symm (hk fd t)
      | done => rfl
      | failed => rfl
    | read _ _ _ => rfl
    | poll _ => rfl
    | sleep _ => rfl
    | close _ => rfl
    | waitpid _ _ => rfl

/-! ### The commands sent and the sleeps, on every initial part of the trace -/

theorem pipeWrites_take_nil (l : List Event) (m : Nat) (h : pipeWrites l = []) :
    pipeWrites (l.take m) = [] := by
  have hsub := (List.take_sublist m l).filterMap Event.pipeData
  unfold pipeWrites at h ⊢
  rw [h] at hsub
  exact List.eq_nil_of_sublist_nil hsub

theorem runParent_take (env : Env) :
    ∃ r n, runParent env = some r ∧ r.trace = cut (parentTrace env) ∧
      r.trace = (parentTrace env).take n ∧ r.isKilled = hasKill (parentTrace env) ∧
      (r.isKilled = false → r.trace = parentTrace env) := by
  obtain ⟨r, hr, htr, hk⟩ := runParent_spec env
  obtain ⟨n, _, hn, _⟩ := cut_eq_take (parentTrace env)
  refine ⟨r, n, hr, htr, by rw [htr, hn], hk, ?_⟩
  intro h
  rw [htr, cut_of_noKill _ (by rw [← hk, h])]

theorem last_mem_of_append {α : Type} (pre : List α) (e : α) (x y : List α)
    (h : pre ++ [e] = x ++ y) (hy : y ≠ []) : e ∈ y := by
  have hr := congrArg List.reverse h
  simp only [List.reverse_append, List.reverse_cons, List.reverse_nil, List.nil_append,
    List.singleton_append] at hr
  cases hyr : y.reverse with
  | nil => exact absurd (List.reverse_eq_nil_iff.mp hyr) hy
  | cons z zs =>
    rw [hyr] at hr
    have hz : e = z := (List.cons.inj hr).1
    have : z ∈ y.reverse := by rw [hyr]; exact List.mem_cons_self _ _
    rw [hz]
    exact List.mem_reverse.mp this

theorem isKill_forgetFailure (e : Event) : e.forgetFailure.isKill = e.isKill := by
  cases e with
  | write fd d res => cases res <;> rfl
  | read _ _ _ => rfl
  | poll _ => rfl
  | sleep _ => rfl
  | close _ => rfl
  | waitpid _ _ => rfl

theorem cut_map_forget : ∀ (l : List Event),
    cut (l.map Event.forgetFailure) = (cut l).map Event.forgetFailure
  | [] => rfl
  | e :: es => by
    simp only [List.map_cons, cut, isKill_forgetFailure]
    split
    · rfl
    · rw [List.map_cons, cut_map_forget es]

theorem hasKill_map_forget (l : List Event) :
    hasKill (l.map Event.forgetFailure) = hasKill l := by
  induction l with
  | nil => rfl
  | cons e es ih => rw [List.map_cons, hasKill_cons, hasKill_cons, ih, isKill_forgetFailure]

theorem parentTrace_forget (env env2 : Env) (hreads : env2.reads = env.reads)
    (hr : env2.raisedAt = env.raisedAt) (hself : env2.self_pid = env.self_pid)
    (hpid : env2.pid = env.pid) (hst : env2.status = env.status)
    (harg : env2.argv1 = env.argv1)
    (hk : ∀ fd t, writeResult env2 fd t = WriteResult.killed ↔
      writeResult env fd t = WriteResult.killed) :
    (parentTrace env2).map Event.forgetFailure = (parentTrace env).map Event.forgetFailure := by
  have hp : (pumpEvents env2).map Event.forgetFailure
      = (pumpEvents env).map Event.forgetFailure := by
    unfold pumpEvents
    rw [hreads]
    exact pumpTrace_forget env env2 hr hk env.reads 8 0
  have hl : (pumpEvents env2).length = (pumpEvents env).length := by
    have := congrArg List.length hp
    simpa using this
  have hb : (bannerTrace env2).map Event.forgetFailure
      = (bannerTrace env).map Event.forgetFailure := by
    simp only [bannerTrace, hself, hpid, harg, List.map_cons, List.map_nil,
      forgetFailure_congr _ _ _ _ (hk _ _)]
  rw [parentTrace, parentTrace]
  simp only [List.map_append, hl, hb, hp]
  congr 1
  unfold drainTrace reportTrace
  rw [hst, hpid]
  split <;>
    simp only [List.map_append, List.map_cons, List.map_nil,
      forgetFailure_congr _ _ _ _ (hk _ _)]

theorem bannerPump_plain (env : Env) :
    ∀ e ∈ bannerTrace env ++ pumpEvents env,
      e ≠ Event.close Fd.pipefd1 ∧ e.isWait = false := by
  intro e h
  rcases List.mem_append.mp h with h | h
  · simp only [bannerTrace, List.mem_cons, List.mem_singleton, List.mem_nil_iff,
      or_false] at h
    rcases h with rfl | rfl | rfl | rfl | rfl | rfl | rfl | rfl <;>
      exact ⟨by simp, rfl⟩
  · exact pumpTrace_events env (fun e => e ≠ Event.close Fd.pipefd1 ∧ e.isWait = false)
      (by intros; exact ⟨by simp, rfl⟩) (by intros; exact ⟨by simp, rfl⟩)
      (by intros; exact ⟨by simp, rfl⟩) (by intros; exact ⟨by simp, rfl⟩)
      env.reads 8 0 e h

/-- An initial part of the trace that ends with a `write` on the pipe lies before
`close(pipefd[1])`: it holds neither that close nor a `waitpid`. -/
theorem take_ending_in_pipe_write (env : Env) (n : Nat) (pre : List Event) (d : List Nat)
    (res : WriteResult)
    (h : (parentTrace env).take n = pre ++ [Event.write Fd.pipefd1 d res]) :
    Event.close Fd.pipefd1 ∉ (parentTrace env).take n ∧
      ∀ e ∈ (parentTrace env).take n, e.isWait = false := by
  have hsplit : (parentTrace env).take n = (bannerTrace env ++ pumpEvents env).take n ++
      (drainTrace env (8 + (pumpEvents env).length)).take
        (n - (bannerTrace env ++ pumpEvents env).length) := by
    rw [parentTrace, List.take_append_eq_append_take]
  have hnil : (drainTrace env (8 + (pumpEvents env).length)).take
      (n - (bannerTrace env ++ pumpEvents env).length) = [] := by
    by_contra hne
    rw [hsplit] at h
    have hm := last_mem_of_append _ _ _ _ h.symm hne
    have hq := drainTrace_quiet env _ _ (List.mem_of_mem_take hm)
    simp [Event.isQuiet, Event.pipeData] at hq
  rw [hsplit, hnil, List.append_nil]
  constructor
  · intro hm
    exact (bannerPump_plain env _ (List.mem_of_mem_take hm)).1 rfl
  · intro e hm
    exact (bannerPump_plain env _ (List.mem_of_mem_take hm)).2

theorem writeResult_of_done (env : Env) (h : ∀ fd t, env.writeOutcome fd t = Outcome.done)
    (fd : Fd) (t : Nat) : writeResult env fd t = WriteResult.done := by
  simp [writeResult, h]

/-- A run in which no `write` finds a broken pipe goes through all of `parentTrace`. -/
theorem runParent_alive (env : Env)
    (hk : ∀ fd t, writeResult env fd t ≠ WriteResult.killed) :
    ∃ s, runParent env = some (Run.alive s) ∧ s.trace = parentTrace env := by
  obtain ⟨r, n, hr, _, _, hkill, hfull⟩ := runParent_take env
  have hno := stamped_noKill env hk _ 0 (stamped_parentTrace env)
  rw [hno] at hkill
  cases r with
  | killed s => simp [Run.isKilled] at hkill
  | alive s => exact ⟨s, hr, hfull hkill⟩

/-! ### After the signal, on the whole of `parentTrace` -/

theorem pipeWrites_cons (e : Event) (l : List Event) :
    pipeWrites (e :: l) = pipeWrites [e] ++ pipeWrites l :=
  pipeWrites_append [e] l

theorem pipeWrites_scanTrace (env : Env) (hr : env.raisedAt = none) :
    ∀ (recs : List (List Nat)) (t : Nat) (ln : Int),
    pipeWrites (scanTrace env recs t ln)
      = (recs.filter (fun r => r ≠ [])).flatMap (fun r => [r, [NL]])
  | [], _, _ => by simp [scanTrace, pipeWrites]
  | r :: rs, t, ln => by
    have ih := pipeWrites_scanTrace env hr rs
    by_cases hne : r = []
    · simp [scanTrace, hne, ih]
    · rw [scanTrace, if_neg hne, child_failed_never env hr, if_neg (by simp),
        pipeWrites_append, ih]
      simp [hne, sendBlock, pipeWrites, Event.pipeData]

theorem pipeWrites_pumpTrace (env : Env) (hr : env.raisedAt = none) :
    ∀ (chunks : List (List Nat)) (t : Nat) (ln : Int),
    (∀ c ∈ chunks, 1 ≤ c.length ∧ c.length ≤ BUFFER_SIZE - 1) →
    pipeWrites (pumpTrace env chunks t ln)
      = chunks.flatMap (fun c =>
          ((records (untilNul c)).filter (fun r => r ≠ [])).flatMap (fun r => [r, [NL]]))
  | [], _, _, _ => by simp [pumpTrace, pipeWrites, Event.pipeData]
  | c :: rest, t, ln, h => by
    have hc := h c (List.mem_cons_self _ _)
    have htake : c.take (BUFFER_SIZE - 1) = c := List.take_of_length_le hc.2
    have hne : c ≠ [] := by
      intro e; rw [e] at hc; simp at hc
    have ih := pipeWrites_pumpTrace env hr rest
    rw [pumpTrace]
    simp only [htake, hne, if_false, child_failed_never env hr, Bool.false_eq_true]
    rw [pipeWrites_append, pipeWrites_cons, pipeWrites_scanTrace env hr,
      pipeWrites_cons (Event.poll false),
      ih _ _ (fun c' hc' => h c' (List.mem_cons_of_mem _ hc'))]
    simp [pipeWrites, Event.pipeData]

theorem recordsFrom_append_closed : ∀ (x cur rest : List Nat),
    recordsFrom cur ((x ++ [NL]) ++ rest) = recordsFrom cur (x ++ [NL]) ++ recordsFrom [] rest
  | [], cur, rest => by simp [recordsFrom]
  | b :: x, cur, rest => by
    have e1 : (b :: x ++ [NL]) ++ rest = b :: ((x ++ [NL]) ++ rest) := rfl
    have e2 : b :: x ++ [NL] = b :: (x ++ [NL]) := rfl
    rw [e1, e2]
    by_cases hb : b = NL
    · rw [recordsFrom, recordsFrom, if_pos hb, if_pos hb, recordsFrom_append_closed x [] rest]
      rfl
    · rw [recordsFrom, recordsFrom, if_neg hb, if_neg hb,
        recordsFrom_append_closed x (cur ++ [b]) rest]

/-- The records of a file handed out in chunks that each end with a newline are the records
of the chunks, one chunk after the other. -/
theorem records_flatten : ∀ (chunks : List (List Nat)),
    (∀ c ∈ chunks, ∃ x, c = x ++ [NL]) → records chunks.flatten = chunks.flatMap records
  | [], _ => rfl
  | c :: rest, h => by
    obtain ⟨x, rfl⟩ := h c (List.mem_cons_self _ _)
    have ih := records_flatten rest (fun c' hc' => h c' (List.mem_cons_of_mem _ hc'))
    simp only [List.flatten_cons, List.flatMap_cons, records] at ih ⊢
    rw [recordsFrom_append_closed, ih]

theorem flatten_pairs : ∀ (l : List (List Nat)),
    (l.flatMap (fun r => [r, [NL]])).flatten = l.flatMap (fun r => r ++ [NL])
  | [] => rfl
  | r :: l => by
    simp only [List.flatMap_cons, List.flatten_append, flatten_pairs l]
    simp

theorem flatten_chunk_pairs : ∀ (chunks : List (List Nat)),
    (chunks.flatMap (fun c =>
      ((records (untilNul c)).filter (fun r => r ≠ [])).flatMap (fun r => [r, [NL]]))).flatten
      = chunks.flatMap chunkOutput
  | [] => rfl
  | c :: rest => by
    simp only [List.flatMap_cons, List.flatten_append, flatten_chunk_pairs rest, flatten_pairs,
      chunkOutput]

/-- The well-formed case of the pump: no interrupt, no `write` that finds a broken pipe, no
NUL byte in the file, and every `read` returns 1 to 1023 bytes ending with a newline (for
instance a newline-terminated file of at most 1023 bytes returned by one `read`). Then the
parent branch runs to its end and writes to the pipe, in file order, every non-empty line of
the file, each followed by a write of one newline, and nothing else. -/
theorem wellformed_chunks_all_lines_sent (env : Env) (hr : env.raisedAt = none)
    (hk : ∀ fd t, env.writeOutcome fd t ≠ Outcome.brokenPipe)
    (hc : ∀ c ∈ env.reads, 1 ≤ c.length ∧ c.length ≤ 1023 ∧ 0 ∉ c ∧ ∃ x, c = x ++ [NL]) :
    ∃ s, runParent env = some (Run.alive s) ∧
      pipeWrites s.trace = ((records env.reads.flatten).filter (fun r => r ≠ [])).flatMap
        (fun r => [r, [NL]]) := by
  have hk' : ∀ fd t, writeResult env fd t ≠ WriteResult.killed := by
    intro fd t
    have := hk fd t
    unfold writeResult
    cases h : env.writeOutcome fd t <;> simp_all
  obtain ⟨s, hs, htr⟩ := runParent_alive env hk'
  refine ⟨s, hs, ?_⟩
  have hb : pipeWrites (bannerTrace env) = [] := rfl
  have hd := (quiet_pipeWrites _ (drainTrace_quiet env (8 + (pumpEvents env).length))).1
  rw [htr, parentTrace, pipeWrites_append, pipeWrites_append, hb, hd, pumpEvents,
    pipeWrites_pumpTrace env hr env.reads 8 0 (fun c h => ⟨(hc c h).1, (hc c h).2.1⟩),
    records_flatten env.reads (fun c h => (hc c h).2.2.2)]
  simp only [List.nil_append, List.append_nil]
  have hu : ∀ (l : List (List Nat)), (∀ c ∈ l, 0 ∉ c) →
      l.flatMap (fun c =>
        ((records (untilNul c)).filter (fun r => r ≠ [])).flatMap (fun r => [r, [NL]]))
      = ((l.flatMap records).filter (fun r => r ≠ [])).flatMap (fun r => [r, [NL]]) := by
    intro l
    induction l with
    | nil => intro _; rfl
    | cons c l ih =>
      intro h0
      have h1 := untilNul_of_not_mem c (h0 c (List.mem_cons_self _ _))
      simp only [List.flatMap_cons, h1, List.filter_append, List.flatMap_append]
      rw [ih (fun c' hc' => h0 c' (List.mem_cons_of_mem _ hc'))]
  exact hu env.reads (fun c h => (hc c h).2.2.1)

/-- The data handed to `write` on the pipe in the whole of `parentTrace`, when no interrupt
arrives. -/
theorem pipeWrites_parentTrace (env : Env) (hr : env.raisedAt = none)
    (hc : ∀ c ∈ env.reads, 1 ≤ c.length ∧ c.length ≤ 1023) :
    (pipeWrites (parentTrace env)).flatten = env.reads.flatMap chunkOutput := by
  have hb : pipeWrites (bannerTrace env) = [] := rfl
  have hd := (quiet_pipeWrites _ (drainTrace_quiet env (8 + (pumpEvents env).length))).1
  rw [parentTrace, pipeWrites_append, pipeWrites_append, hb, hd, pumpEvents,
    pipeWrites_pumpTrace env hr env.reads 8 0 hc, List.nil_append, List.append_nil,
    flatten_chunk_pairs]

/-! ## The claims -/

/-! ### C1 -/

set_option maxRecDepth 1000000 in
/-- C1 (code at the failing input): the file `ping\nwhoami` has two non-blank lines, and one
`read` returns all of it; the pump sends `ping` and its newline and nothing else, since the
last line has no newline. With the newline, as in `ping\n\nwhoami\n`, both are sent. -/
theorem C1_last_line_without_newline_not_sent :
    (runParent (mkEnv [ascii "ping\nwhoami"] none)).map (fun s => pipeWrites s.trace)
        = some [ascii "ping", ascii "\n"] ∧
      (runParent (mkEnv [ascii "ping\n\nwhoami\n"] none)).map (fun s => pipeWrites s.trace)
        = some [ascii "ping", ascii "\n", ascii "whoami", ascii "\n"] := by
  decide

/-! ### C2 -/

set_option maxRecDepth 1000000 in
/-- C2 (code at the failing input): a file made of a 1023-byte line and its newline is read
as a chunk of 1023 bytes and a chunk holding the newline; nothing at all is written to the
pipe. A short read that splits `ping\n` into `pi` and `ng\n` makes the pump send `ng`. -/
theorem C2_line_across_chunks_is_lost :
    fileChunks 2 (List.replicate 1023 97 ++ [NL]) = [List.replicate 1023 97, [NL]] ∧
      (runParent (mkEnv (fileChunks 2 (List.replicate 1023 97 ++ [NL])) none)).map
        (fun s => pipeWrites s.trace) = some [] ∧
      (runParent (mkEnv [ascii "pi", ascii "ng\n"] none)).map (fun s => pipeWrites s.trace)
        = some [ascii "ng", ascii "\n"] := by
  decide

/-! ### C3 -/

set_option maxRecDepth 1000000 in
/-- C3 (code at the failing input): for the file `exit`, whose only line has no newline,
the pump reads the four bytes, writes nothing to the pipe, reads end of file and closes the
pipe. -/
theorem C3_unterminated_tail_dropped :
    (runParent (mkEnv [ascii "exit"] none)).map (fun s => pipeWrites s.trace) = some [] ∧
      (runParent (mkEnv [ascii "exit"] none)).map (fun s => s.trace.drop 8)
        = some [Event.read Fd.file_fd 1023 (ascii "exit"), Event.poll false,
            Event.read Fd.file_fd 1023 [], Event.close Fd.pipefd1, Event.close Fd.file_fd,
            Event.waitpid 101 0,
            Event.write Fd.STDOUT_FILENO (lit "Родитель: Дочерний процесс завершен с кодом: ")
              WriteResult.done,
            Event.write Fd.STDOUT_FILENO (ascii "0") WriteResult.done,
            Event.write Fd.STDOUT_FILENO (lit "\n") WriteResult.done,
            Event.write Fd.STDOUT_FILENO (lit "Родитель: Завершение работы\n")
              WriteResult.done] := by
  decide

/-! ### C4 -/

/-- C5 (amended): a `write` that finds the pipe broken is not treated as an interrupt. Take
any `write` of the run, with the events `pre` before it and `post` after it, that finds a
broken pipe. If `SIGPIPE` has its default action, which `main.c` never changes, the process
is ended inside that call: it is the last event of the run, and when it is a `write` on the
pipe the run holds no `close(pipefd[1])` and no `waitpid`. If `SIGPIPE` was inherited as
ignored, the call returns `-1`. A run that is ended stops at a `write`. And a result that
is returned has no influence: in an environment that differs only in what the `write` calls
return, with the process ended at the same calls, the run makes the same calls with the
same arguments in the same order and polls the flag with the same outcome. -/
theorem C5_broken_pipe_ends_the_parent_or_is_ignored (env : Env) :
    ∃ r, runParent env = some r ∧
      (∀ pre fd d res post, r.trace = pre ++ Event.write fd d res :: post →
        env.writeOutcome fd pre.length = Outcome.brokenPipe →
          (env.sigpipe_ignored = false →
            res = WriteResult.killed ∧ post = [] ∧ r.isKilled = true ∧
              (fd = Fd.pipefd1 →
                Event.close Fd.pipefd1 ∉ r.trace ∧ ∀ e ∈ r.trace, e.isWait = false)) ∧
          (env.sigpipe_ignored = true → res = WriteResult.failed ∧ r.isKilled = false)) ∧
      (r.isKilled = true →
        ∃ pre fd d, r.trace = pre ++ [Event.write fd d WriteResult.killed]) ∧
      (∀ (w : Fd → Nat → Outcome) (g : Bool),
        (∀ fd t, writeResult { env with writeOutcome := w, sigpipe_ignored := g } fd t
            = WriteResult.killed ↔ writeResult env fd t = WriteResult.killed) →
        ∃ r2, runParent { env with writeOutcome := w, sigpipe_ignored := g } = some r2 ∧
          r2.trace.map Event.forgetFailure = r.trace.map Event.forgetFailure ∧
          r2.isKilled = r.isKilled) := by
  obtain ⟨r, n, hr, hcut, htake, hkill, _⟩ := runParent_take env
  have hstamp : ∀ pre fd d res post, r.trace = pre ++ Event.write fd d res :: post →
      res = writeResult env fd pre.length := by
    intro pre fd d res post hsplit
    have hT : parentTrace env = pre ++ Event.write fd d res ::
        (post ++ (parentTrace env).drop n) := by
      rw [← List.cons_append, ← List.append_assoc, ← hsplit, htake, List.take_append_drop]
    have := stamped_split env pre _ 0 fd d res _ (stamped_parentTrace env) hT
    rwa [Nat.zero_add] at this
  refine ⟨r, hr, ?_, ?_, ?_⟩
  · intro pre fd d res post hsplit hbroken
    have hres := hstamp pre fd d res post hsplit
    constructor
    · intro hdefault
      have hk : res = WriteResult.killed := by
        rw [hres]; simp [writeResult, hbroken, hdefault]
      subst hk
      have hpost : post = [] := cut_kill_is_last (parentTrace env) pre post
        (Event.write fd d WriteResult.killed) (by rw [← hcut]; exact hsplit) rfl
      subst hpost
      refine ⟨rfl, rfl, ?_, ?_⟩
      · rw [hkill, ← hasKill_cut, ← hcut, hsplit, hasKill_append]
        simp [hasKill, Event.isKill]
      · intro hfd
        subst hfd
        rw [htake] at hsplit ⊢
        exact take_ending_in_pipe_write env n pre d _ hsplit
    · intro hign
      have hno : ∀ fd t, writeResult env fd t ≠ WriteResult.killed := by
        intro fd t
        unfold writeResult
        cases env.writeOutcome fd t <;> simp [hign]
      refine ⟨by rw [hres]; simp [writeResult, hbroken, hign], ?_⟩
      rw [hkill]
      exact stamped_noKill env hno _ 0 (stamped_parentTrace env)
  · intro hk
    rw [hkill] at hk
    obtain ⟨pre, fd, d, hc, _⟩ := cut_kill_last _ hk
    exact ⟨pre, fd, d, by rw [hcut, hc]⟩
  · intro w g hsame
    obtain ⟨r2, hr2, hcut2, hkill2⟩ :=
      runParent_spec { env with writeOutcome := w, sigpipe_ignored := g }
    have hf := parentTrace_forget env { env with writeOutcome := w, sigpipe_ignored := g }
      rfl rfl rfl rfl rfl rfl hsame
    refine ⟨r2, hr2, ?_, ?_⟩
    · rw [hcut2, hcut, ← cut_map_forget, ← cut_map_forget, hf]
    · rw [hkill2, hkill, ← hasKill_map_forget, hf, hasKill_map_forget]

set_option maxRecDepth 1000000 in
/-- C5 (counterexample): the file is read as the chunks `a\n` and `b\n`, and the child has
exited when the parent comes to its first `write` on the pipe (event 15). With the default
action of `SIGPIPE` the parent is ended inside that `write`: the run stops there, without
`close(pipefd[1])` and without `waitpid`. With `SIGPIPE` ignored the `write` fails and the
pump goes on: from that `write` on, the calls on the pipe and on the file are the failed
write of `a`, the write of its newline, the read of the second chunk, the writes of `b` and
of its newline, and the read of end of file. -/
theorem C5_no_drain_after_broken_pipe :
    (runParent (mkEnvBroken [ascii "a\n", ascii "b\n"] 15 false)).map
        (fun r => (r.isKilled, r.trace.drop 8))
      = some (true,
          [ Event.read Fd.file_fd 1023 (ascii "a\n"),
            Event.poll false,
            Event.write Fd.STDOUT_FILENO (lit "Родитель: Отправка команды ") WriteResult.done,
            Event.write Fd.STDOUT_FILENO (ascii "1") WriteResult.done,
            Event.write Fd.STDOUT_FILENO (ascii ": ") WriteResult.done,
            Event.write Fd.STDOUT_FILENO (ascii "a") WriteResult.done,
            Event.write Fd.STDOUT_FILENO (ascii "\n") WriteResult.done,
            Event.write Fd.pipefd1 (ascii "a") WriteResult.killed ]) ∧
      (runParent (mkEnvBroken [ascii "a\n", ascii "b\n"] 15 true)).map
        (fun r => (r.isKilled,
          (r.trace.drop 15).filter (fun e => e.isRead || e.pipeData.isSome)))
      = some (false,
          [ Event.write Fd.pipefd1 (ascii "a") WriteResult.failed,
            Event.write Fd.pipefd1 (ascii "\n") WriteResult.failed,
            Event.read Fd.file_fd 1023 (ascii "b\n"),
            Event.write Fd.pipefd1 (ascii "b") WriteResult.failed,
            Event.write Fd.pipefd1 (ascii "\n") WriteResult.failed,
            Event.read Fd.file_fd 1023 [] ]) := by
  decide

/-! ### C6 -/

/-- C6 (amended): a wait status for which `WIFEXITED` holds is reported as the exit code
`WEXITSTATUS(status)` in decimal, between the two fixed messages and before the completion
line; for every other status, a termination by a signal included, only the completion line
is written. (`finish s tr`: the process goes through the calls `tr`, all of them unless one
is a `write` that `SIGPIPE` ends.) A normal exit with code `n` is the status `256 * n`; a
termination by a signal is a status for which `WIFSIGNALED` holds, and then `WIFEXITED`
does not. -/
theorem C6_exit_code_reported_other_statuses_silent (env : Env) (s : PumpState)
    (status : Nat) :
    (WIFEXITED status = true →
      reportStatus env s status = some (finish s
        [ Event.write Fd.STDOUT_FILENO (lit "Родитель: Дочерний процесс завершен с кодом: ")
            (writeResult env Fd.STDOUT_FILENO s.trace.length),
          Event.write Fd.STDOUT_FILENO (decimalDigits (WEXITSTATUS status))
            (writeResult env Fd.STDOUT_FILENO (s.trace.length + 1)),
          Event.write Fd.STDOUT_FILENO (lit "\n")
            (writeResult env Fd.STDOUT_FILENO (s.trace.length + 2)),
          Event.write Fd.STDOUT_FILENO (lit "Родитель: Завершение работы\n")
            (writeResult env Fd.STDOUT_FILENO (s.trace.length + 3)) ])) ∧
    (WIFEXITED status = false →
      reportStatus env s status = some (finish s
        [ Event.write Fd.STDOUT_FILENO (lit "Родитель: Завершение работы\n")
            (writeResult env Fd.STDOUT_FILENO s.trace.length) ])) ∧
    (∀ n, n < 256 → WIFEXITED (256 * n) = true ∧ WEXITSTATUS (256 * n) = n) ∧
    (WIFSIGNALED status = true → WIFEXITED status = false) := by
  refine ⟨?_, ?_, ?_, ?_⟩
  · intro h
    have hlt : WEXITSTATUS status < 2147483648 := by
      unfold WEXITSTATUS; omega
    rw [reportStatus_spec, reportTrace, if_pos h, intBytes_small _ hlt]
  · intro h
    rw [reportStatus_spec, reportTrace, if_neg (by simp [h])]
  · intro n hn
    constructor
    · simp only [WIFEXITED, WTERMSIG, decide_eq_true_eq]; omega
    · simp only [WEXITSTATUS]; omega
  · intro h
    simp only [WIFSIGNALED, WIFEXITED, decide_eq_true_eq, decide_eq_false_iff_not] at h ⊢
    omega

set_option maxRecDepth 1000000 in
/-- C6 at a concrete input: the status `0x0700` of a child that called `exit(7)` is reported
with the digit `7`, in four `write` calls after which the parent is alive. -/
theorem C6_witness :
    WIFEXITED 1792 = true ∧ decimalDigits (WEXITSTATUS 1792) = ascii "7" ∧
      finish (mkState [] 0 0)
        [ Event.write Fd.STDOUT_FILENO (lit "Родитель: Дочерний процесс завершен с кодом: ")
            (writeResult (mkEnv [] none) Fd.STDOUT_FILENO (mkState [] 0 0).trace.length),
          Event.write Fd.STDOUT_FILENO (decimalDigits (WEXITSTATUS 1792))
            (writeResult (mkEnv [] none) Fd.STDOUT_FILENO ((mkState [] 0 0).trace.length + 1)),
          Event.write Fd.STDOUT_FILENO (lit "\n")
            (writeResult (mkEnv [] none) Fd.STDOUT_FILENO ((mkState [] 0 0).trace.length + 2)),
          Event.write Fd.STDOUT_FILENO (lit "Родитель: Завершение работы\n")
            (writeResult (mkEnv [] none) Fd.STDOUT_FILENO
              ((mkState [] 0 0).trace.length + 3)) ]
        = Run.alive { mkState [] 0 0 with trace :=
          [ Event.write Fd.STDOUT_FILENO
              (lit "Родитель: Дочерний процесс завершен с кодом: ") WriteResult.done,
            Event.write Fd.STDOUT_FILENO (ascii "7") WriteResult.done,
            Event.write Fd.STDOUT_FILENO (lit "\n") WriteResult.done,
            Event.write Fd.STDOUT_FILENO (lit "Родитель: Завершение работы\n")
              WriteResult.done ] } ∧
      reportStatus (mkEnv [] none) (mkState [] 0 0) 1792 = some (finish (mkState [] 0 0)
        [ Event.write Fd.STDOUT_FILENO (lit "Родитель: Дочерний процесс завершен с кодом: ")
            (writeResult (mkEnv [] none) Fd.STDOUT_FILENO (mkState [] 0 0).trace.length),
          Event.write Fd.STDOUT_FILENO (decimalDigits (WEXITSTATUS 1792))
            (writeResult (mkEnv [] none) Fd.STDOUT_FILENO ((mkState [] 0 0).trace.length + 1)),
          Event.write Fd.STDOUT_FILENO (lit "\n")
            (writeResult (mkEnv [] none) Fd.STDOUT_FILENO ((mkState [] 0 0).trace.length + 2)),
          Event.write Fd.STDOUT_FILENO (lit "Родитель: Завершение работы\n")
            (writeResult (mkEnv [] none) Fd.STDOUT_FILENO
              ((mkState [] 0 0).trace.length + 3)) ]) :=
  ⟨by decide, by simp [WEXITSTATUS, decimalDigits, ascii],
    by simp [WEXITSTATUS, decimalDigits, ascii, finish, hasKill, Event.isKill, writeResult,
      mkEnv, mkState],
    (C6_exit_code_reported_other_statuses_silent (mkEnv [] none) (mkState [] 0 0) 1792).1
      (by decide)⟩

set_option maxRecDepth 1000000 in
/-- C6 (counterexample): the status `9` is a termination by signal 9, yet all the parent
writes after `waitpid` is the completion line; the same for signal 15 and for the status
`0x137f` of a stopped child, so the report does not tell the three apart. -/
theorem C6_signal_death_not_reported :
    WIFSIGNALED 9 = true ∧ WTERMSIG 9 = 9 ∧
      reportStatus (mkEnv [] none) (mkState [] 0 0) 9 = some (Run.alive
        { mkState [] 0 0 with trace :=
          [Event.write Fd.STDOUT_FILENO (lit "Родитель: Завершение работы\n")
            WriteResult.done] }) ∧
      reportStatus (mkEnv [] none) (mkState [] 0 0) 15
        = reportStatus (mkEnv [] none) (mkState [] 0 0) 9 ∧
      reportStatus (mkEnv [] none) (mkState [] 0 0) 4991
        = reportStatus (mkEnv [] none) (mkState [] 0 0) 9 := by
  decide

/-! ### C7 -/

/-- C7 (amended): every run of the parent branch comes to an end. If it is not ended by
`SIGPIPE`, its trace splits around one `close(pipefd[1])`: before it no such close and no
`waitpid`, after it no such close, no `write` on the pipe, and exactly one `waitpid`. If a
`write` on the pipe is ended by `SIGPIPE`, that `write` is the last event of the run, and
the run holds no `close(pipefd[1])` and no `waitpid`. In every run the trace splits into a
part `pre` without that close and without `waitpid`, and a part `post` without `write` on
the pipe that is empty or starts with the one `close(pipefd[1])` and holds at most one
`waitpid`. -/
theorem C7_close_once_unless_ended_by_sigpipe (env : Env) :
    ∃ r, runParent env = some r ∧
      (r.isKilled = false → ∃ pre post,
        r.trace = pre ++ Event.close Fd.pipefd1 :: post ∧
        Event.close Fd.pipefd1 ∉ pre ∧ (∀ e ∈ pre, e.isWait = false) ∧
        Event.close Fd.pipefd1 ∉ post ∧ pipeWrites post = [] ∧
        post.countP Event.isWait = 1) ∧
      (∀ pre d post, r.trace = pre ++ Event.write Fd.pipefd1 d WriteResult.killed :: post →
        post = [] ∧ r.isKilled = true ∧ Event.close Fd.pipefd1 ∉ r.trace ∧
        ∀ e ∈ r.trace, e.isWait = false) ∧
      (∃ pre post, r.trace = pre ++ post ∧
        Event.close Fd.pipefd1 ∉ pre ∧ (∀ e ∈ pre, e.isWait = false) ∧
        pipeWrites post = [] ∧ post.countP Event.isWait ≤ 1 ∧
        (post = [] ∨ ∃ q, post = Event.close Fd.pipefd1 :: q ∧ Event.close Fd.pipefd1 ∉ q)) := by
  obtain ⟨r, n, hr, hcut, htake, hkill, hfull⟩ := runParent_take env
  have hT : parentTrace env = (bannerTrace env ++ pumpEvents env) ++
      Event.close Fd.pipefd1 :: (Event.close Fd.file_fd :: Event.waitpid env.pid env.status ::
        reportTrace env (8 + (pumpEvents env).length + 3) env.status) := by
    rw [parentTrace, drainTrace]
    simp
  have hpre := bannerPump_plain env
  have hnc : Event.close Fd.pipefd1 ∉ (Event.close Fd.file_fd ::
      Event.waitpid env.pid env.status ::
        reportTrace env (8 + (pumpEvents env).length + 3) env.status) := by
    intro h
    rcases List.mem_cons.mp h with h | h
    · simp at h
    · rcases List.mem_cons.mp h with h | h
      · simp at h
      · exact reportTrace_no_close env _ _ _ h
  have hpw : pipeWrites (Event.close Fd.pipefd1 :: Event.close Fd.file_fd ::
      Event.waitpid env.pid env.status ::
        reportTrace env (8 + (pumpEvents env).length + 3) env.status) = [] := by
    have h := pipeWrites_reportTrace env (8 + (pumpEvents env).length + 3) env.status
    have h2 : pipeWrites ([Event.close Fd.pipefd1, Event.close Fd.file_fd,
        Event.waitpid env.pid env.status] ++
        reportTrace env (8 + (pumpEvents env).length + 3) env.status) = [] := by
      rw [pipeWrites_append, h]
      rfl
    exact h2
  have hw : (Event.close Fd.pipefd1 :: Event.close Fd.file_fd ::
      Event.waitpid env.pid env.status ::
        reportTrace env (8 + (pumpEvents env).length + 3) env.status).countP Event.isWait
        = 1 := by
    simp [List.countP_cons, Event.isWait, reportTrace_no_wait]
  refine ⟨r, hr, ?_, ?_, ?_⟩
  · intro hk
    refine ⟨bannerTrace env ++ pumpEvents env, _, by rw [hfull hk]; exact hT,
      fun h => (hpre _ h).1 rfl, fun e h => (hpre e h).2, hnc, ?_, ?_⟩
    · have h2 : pipeWrites (Event.close Fd.pipefd1 :: Event.close Fd.file_fd ::
          Event.waitpid env.pid env.status ::
          reportTrace env (8 + (pumpEvents env).length + 3) env.status)
          = pipeWrites (Event.close Fd.file_fd :: Event.waitpid env.pid env.status ::
          reportTrace env (8 + (pumpEvents env).length + 3) env.status) := rfl
      rw [← h2]; exact hpw
    · have h2 : (Event.close Fd.pipefd1 :: Event.close Fd.file_fd ::
          Event.waitpid env.pid env.status ::
          reportTrace env (8 + (pumpEvents env).length + 3) env.status).countP Event.isWait
          = (Event.close Fd.file_fd :: Event.waitpid env.pid env.status ::
          reportTrace env (8 + (pumpEvents env).length + 3) env.status).countP
            Event.isWait := by
        rw [List.countP_cons_of_neg]
        simp [Event.isWait]
      rw [← h2]; exact hw
  · intro pre d post hsplit
    have hpost : post = [] := cut_kill_is_last (parentTrace env) pre post
      (Event.write Fd.pipefd1 d WriteResult.killed) (by rw [← hcut]; exact hsplit) rfl
    subst hpost
    refine ⟨rfl, ?_, ?_⟩
    · rw [hkill, ← hasKill_cut, ← hcut, hsplit, hasKill_append]
      simp [hasKill, Event.isKill]
    · rw [htake] at hsplit ⊢
      exact take_ending_in_pipe_write env n pre d _ hsplit
  · refine ⟨(bannerTrace env ++ pumpEvents env).take n,
      (Event.close Fd.pipefd1 :: Event.close Fd.file_fd ::
        Event.waitpid env.pid env.status ::
        reportTrace env (8 + (pumpEvents env).length + 3) env.status).take
          (n - (bannerTrace env ++ pumpEvents env).length), ?_, ?_, ?_, ?_, ?_, ?_⟩
    · rw [htake, hT, List.take_append_eq_append_take]
    · exact fun h => (hpre _ (List.mem_of_mem_take h)).1 rfl
    · exact fun e h => (hpre e (List.mem_of_mem_take h)).2
    · exact pipeWrites_take_nil _ _ hpw
    · have := (List.take_sublist (n - (bannerTrace env ++ pumpEvents env).length)
        (Event.close Fd.pipefd1 :: Event.close Fd.file_fd ::
          Event.waitpid env.pid env.status ::
          reportTrace env (8 + (pumpEvents env).length + 3) env.status)).countP_le
        Event.isWait
      omega
    · cases hm : n - (bannerTrace env ++ pumpEvents env).length with
      | zero => left; rfl
      | succ k =>
        right
        exact ⟨_, List.take_succ_cons, fun h => hnc (List.mem_of_mem_take h)⟩

set_option maxRecDepth 1000000 in
/-- C7 (counterexample): the file is `ping\n` and the child has exited before the parent
sends anything, with `SIGPIPE` at its default action. The run got past `fork`, and it is
ended inside the first `write` on the pipe: its trace holds no `close(pipefd[1])` and no
`waitpid`, and its last event is that `write`. -/
theorem C7_no_close_after_sigpipe :
    (runParent (mkEnvBroken [ascii "ping\n"] 0 false)).map
        (fun r => (r.isKilled, r.trace.count (Event.close Fd.pipefd1),
          r.trace.countP Event.isWait, r.trace.length, r.trace.getLast?))
      = some (true, 0, 0, 16,
          some (Event.write Fd.pipefd1 (ascii "ping") WriteResult.killed)) := by
  decide

/-! ### C8 -/

/-- C8 (amended): when the byte at the scan position is a newline, one pass of the inner
loop leaves the trace as it is (nothing is written, the flag is not polled, whatever the
environment and so also when the flag is set), adds one to `line_number`, overwrites that
newline in `buffer` with NUL and moves `line` just past it. -/
theorem C8_blank_line_step (env : Env) (s : PumpState) (h : s.buffer[s.line]? = some NL) :
    lineStep env s = some (Step.next
      { buffer := s.buffer.set s.line 0
        line := s.line + 1
        line_number := s.line_number + 1
        trace := s.trace }) := by
  obtain ⟨hlt, hget⟩ := List.getElem?_eq_some_iff.mp h
  have hdrop : s.buffer.drop s.line = NL :: s.buffer.drop (s.line + 1) := by
    rw [← hget]; simp
  exact lineStep_blank env s _ hdrop

/-- C8 at a concrete input: the buffer holds `\nls\n`, the flag is set from the start. -/
theorem C8_witness :
    (mkState (ascii "\nls\n" ++ [0]) 0 4).buffer[(mkState (ascii "\nls\n" ++ [0]) 0 4).line]?
        = some NL ∧
      lineStep (mkEnv [] (some 0)) (mkState (ascii "\nls\n" ++ [0]) 0 4) = some (Step.next
        { buffer := (mkState (ascii "\nls\n" ++ [0]) 0 4).buffer.set
            (mkState (ascii "\nls\n" ++ [0]) 0 4).line 0
          line := (mkState (ascii "\nls\n" ++ [0]) 0 4).line + 1
          line_number := (mkState (ascii "\nls\n" ++ [0]) 0 4).line_number + 1
          trace := (mkState (ascii "\nls\n" ++ [0]) 0 4).trace }) :=
  ⟨by decide, C8_blank_line_step _ _ (by decide)⟩

/-- C8 (counterexample): in the state with `buffer = "\nls\n"`, `line = buffer` and
`line_number = 4`, the pass over the empty line also changes `buffer[0]` from newline to
NUL: the state reached is not the one that differs only in `line_number` and `line`. -/
theorem C8_blank_line_overwrites_newline :
    lineStep (mkEnv [] none) (mkState [10, 108, 115, 10, 0] 0 4)
        = some (Step.next (mkState [0, 108, 115, 10, 0] 1 5)) ∧
      decide (lineStep (mkEnv [] none) (mkState [10, 108, 115, 10, 0] 0 4)
        = some (Step.next (mkState [10, 108, 115, 10, 0] 1 5))) = false := by
  decide

/-! ### C9 -/

/-- C9: with no interrupt, whatever chunks of 1 to 1023 bytes the successive reads return,
the run of the parent branch comes to an end. Unless it is ended by `SIGPIPE`, the bytes it
hands to `write` on the pipe are the concatenation, chunk after chunk, of the non-empty
newline-terminated records of the chunk's part before its first NUL, each followed by one
newline; in every case they are an initial part of that concatenation. When every `write`
succeeds, the run is not ended and these are the bytes that reach the pipe. So what follows
a NUL in a chunk, and what follows the last newline of a chunk, is never written to the
pipe. -/
theorem C9_pipe_bytes_chunk_by_chunk (env : Env) (hr : env.raisedAt = none)
    (hc : ∀ c ∈ env.reads, 1 ≤ c.length ∧ c.length ≤ 1023) :
    ∃ s, runParent env = some s ∧
      (s.isKilled = false → (pipeWrites s.trace).flatten = env.reads.flatMap chunkOutput) ∧
      (∃ rest, (pipeWrites s.trace).flatten ++ rest = env.reads.flatMap chunkOutput) ∧
      ((∀ fd t, env.writeOutcome fd t = Outcome.done) →
        s.isKilled = false ∧ pipeBytes s.trace = env.reads.flatMap chunkOutput) ∧
      (∀ pre post, chunkOutput (pre ++ 0 :: post) = chunkOutput pre) ∧
      (∀ body tail, NL ∉ tail → chunkOutput (body ++ tail) = chunkOutput body) := by
  obtain ⟨s, n, hs, _, htake, hkill, hfull⟩ := runParent_take env
  have hall := pipeWrites_parentTrace env hr hc
  refine ⟨s, hs, ?_, ?_, ?_, chunkOutput_append_nul, chunkOutput_append_tail⟩
  · intro hk
    rw [hfull hk]; exact hall
  · refine ⟨(pipeWrites ((parentTrace env).drop n)).flatten, ?_⟩
    rw [htake, ← List.flatten_append, ← pipeWrites_append, List.take_append_drop]
    exact hall
  · intro hw
    have hno : hasKill (parentTrace env) = false :=
      stamped_noKill env (fun fd t => by rw [writeResult_of_done env hw]; simp) _ 0
        (stamped_parentTrace env)
    have hk : s.isKilled = false := by rw [hkill, hno]
    refine ⟨hk, ?_⟩
    rw [hfull hk, parentTrace, pipeBytes_append, pipeBytes_append, pipeBytes_bannerTrace,
      pipeBytes_drainTrace, pumpEvents,
      pipeBytes_pumpTrace env hr (writeResult_of_done env hw) env.reads 8 0 hc]
    simp

set_option maxRecDepth 1000000 in
/-- C9 at a concrete input: three chunks, the second with a NUL, the first and the last
ending in an unterminated piece. -/
theorem C9_witness :
    (mkEnv [ascii "ping\n\nwho", [1, 10, 0, 2, 10], ascii "ami\nx"] none).raisedAt = none ∧
      (∀ c ∈ (mkEnv [ascii "ping\n\nwho", [1, 10, 0, 2, 10], ascii "ami\nx"] none).reads,
        1 ≤ c.length ∧ c.length ≤ 1023) ∧
      (mkEnv [ascii "ping\n\nwho", [1, 10, 0, 2, 10], ascii "ami\nx"] none).reads.flatMap
        chunkOutput = ascii "ping\n" ++ [1, 10] ++ ascii "ami\n" ∧
      (runParent (mkEnv [ascii "ping\n\nwho", [1, 10, 0, 2, 10], ascii "ami\nx"] none)).map
        (fun s => (s.isKilled, pipeBytes s.trace))
        = some (false, ascii "ping\n" ++ [1, 10] ++ ascii "ami\n") ∧
      ∃ s, runParent (mkEnv [ascii "ping\n\nwho", [1, 10, 0, 2, 10], ascii "ami\nx"] none)
          = some s ∧
        (s.isKilled = false → (pipeWrites s.trace).flatten =
          (mkEnv [ascii "ping\n\nwho", [1, 10, 0, 2, 10], ascii "ami\nx"] none).reads.flatMap
            chunkOutput) ∧
        (∃ rest, (pipeWrites s.trace).flatten ++ rest =
          (mkEnv [ascii "ping\n\nwho", [1, 10, 0, 2, 10], ascii "ami\nx"] none).reads.flatMap
            chunkOutput) ∧
        ((∀ fd t,
            (mkEnv [ascii "ping\n\nwho", [1, 10, 0, 2, 10], ascii "ami\nx"] none).writeOutcome
              fd t = Outcome.done) →
          s.isKilled = false ∧ pipeBytes s.trace =
            (mkEnv [ascii "ping\n\nwho", [1, 10, 0, 2, 10], ascii "ami\nx"] none).reads.flatMap
              chunkOutput) ∧
        (∀ pre post, chunkOutput (pre ++ 0 :: post) = chunkOutput pre) ∧
        (∀ body tail, NL ∉ tail → chunkOutput (body ++ tail) = chunkOutput body) :=
  ⟨rfl, by decide, by decide, by decide, C9_pipe_bytes_chunk_by_chunk _ rfl (by decide)⟩

/-! ### C10 -/

/-- C10 (code at the failing input): for `INT_MIN`, with `-num` wrapping around to
`INT_MIN`, `write_int` writes the two bytes `-(`, not `-2147483648`. -/
theorem C10_write_int_INT_MIN :
    write_int_bytes (-2147483648) = some (ascii "-(") ∧
      canonicalDecimal (-2147483648) = ascii "-2147483648" := by
  refine ⟨by decide, ?_⟩
  simp [canonicalDecimal, decimalDigits, ascii]

end OsLab05
